import Mathlib

/-!
Verification of the unordered multi-element matching engine of the `gotest`
library (`container_matchers.go`): the `unorderedMatcher` used by `Contains`
(subset mode) and `ElementsAreUnordered` (full-bijection mode), together with
its Ford-Fulkerson style assignment search (`matcherFlowGraph.Solve` /
`tryAssign`) and the diagnostic composer (`ExplainFailure`).

The Go code is embedded shallowly:

* Go values that may be passed to a matcher are modelled by `GoVal`
  (`.arr` covers `reflect.Array` and `reflect.Slice` kinds; every other kind
  is a non-sequence as far as this engine is concerned).
* a `Matcher` is a boolean predicate on `GoVal` plus its `String()`
  description.
* Go runtime panics (out-of-range slice indexing) are made explicit: every
  indexing operation of the source is performed through `List.getElem?` and a
  `none` result aborts the computation with `Res.crash`, exactly where the Go
  runtime would panic.
* the recursion of `tryAssign` is run on explicit fuel; `Res.fuelOut` is a
  model artifact that is distinct from `.crash`, and `Solve` supplies enough
  fuel (this is proved below: with the fuel chosen, `.fuelOut` is
  unreachable).
-/

namespace Gotest

/-- A Go value, as seen by the unordered container matchers.  `arr` is a value
whose `reflect.Kind` is `Array` or `Slice`; `int`, `str` and `other` are
values of any other kind (`other` carries the `%T` type name used in
diagnostics). -/
inductive GoVal where
  | int (n : Int)
  | str (s : String)
  | arr (elems : List GoVal)
  | other (tyName : String)
deriving Repr

/-- The `%T` format of a value, as used by the type-mismatch diagnostics. -/
def GoVal.tyName : GoVal → String
  | .int _ => "int"
  | .str _ => "string"
  | .arr _ => "[]interface {}"
  | .other t => t

/-- The `Matcher` interface: `Matches(x any) bool` and `String() string`. -/
structure Matcher where
  Matches : GoVal → Bool
  str : String

/-- Result of running a piece of embedded Go code: a normal return, a runtime
panic (`crash`, e.g. index out of range), or exhaustion of the model's
recursion fuel (`fuelOut`; proved unreachable for the fuel used by `Solve`). -/
inductive Res (α : Type) where
  | ok (a : α)
  | crash
  | fuelOut
deriving Repr

/-- `matcherFlowGraph`: the adjacency matrix `matchMatrix` (row `i`, column
`j` is true iff matcher `i` matches value `j`) plus the flow discovered so
far.  `-1` is the "unassigned" sentinel, as in the source. -/
structure matcherFlowGraph where
  matchMatrix : List (List Bool)
  valToMatcher : List Int
  matcherToVal : List Int
  matchersMatched : Nat
deriving Repr

/-- `newMatcherFlowGraph`: both assignment arrays start out all `-1`;
`valToMatcher` is left nil when there are no rows. -/
def newMatcherFlowGraph (matchMatrix : List (List Bool)) : matcherFlowGraph :=
  { matchMatrix := matchMatrix
    matcherToVal := List.replicate matchMatrix.length (-1)
    valToMatcher :=
      match matchMatrix with
      | [] => []
      | row0 :: _ => List.replicate row0.length (-1)
    matchersMatched := 0 }

/-- Indexing a Go slice by a signed index: negative or too large panics. -/
def goIdx (l : List α) (i : Int) : Option α :=
  if 0 ≤ i then l[i.toNat]? else none

/-- First loop of `tryAssign`: scan `row` (the suffix of
`matchMatrix[matcher]` starting at column `j`) for a matching value that is
currently unassigned; assign and return the updated graph if one is found.
`none` is a panic, `some none` means the loop ran to completion. -/
def firstPass (g : matcherFlowGraph) (matcherN : Nat) :
    List Bool → Nat → Option (Option matcherFlowGraph)
  | [], _ => some none
  | b :: rest, j =>
    if b then
      match g.valToMatcher[j]? with
      | none => none
      | some a =>
        if a = -1 then
          if matcherN < g.matcherToVal.length then
            some (some { g with
              matcherToVal := g.matcherToVal.set matcherN (Int.ofNat j)
              valToMatcher := g.valToMatcher.set j (Int.ofNat matcherN) })
          else none
        else firstPass g matcherN rest (j + 1)
    else firstPass g matcherN rest (j + 1)

mutual

/-- `matcherFlowGraph.tryAssign`: try to find a value for `matcher`, first
among unassigned matching values, then by recursively displacing the matcher
currently assigned to a matching value.  `visited` is the cycle-prevention
array of the source (allocated with length `len(matchMatrix)` by `Solve`).
The result carries the updated graph, the updated visited array and the
boolean returned by the Go function. -/
def tryAssign (g : matcherFlowGraph) (matcher : Int) (visited : List Bool) :
    Nat → Res (matcherFlowGraph × List Bool × Bool)
  | 0 => .fuelOut
  | fuel + 1 =>
    match goIdx g.matchMatrix matcher with
    | none => .crash
    | some row =>
      match firstPass g matcher.toNat row 0 with
      | none => .crash
      | some (some g') => .ok (g', visited, true)
      | some none => secondPass g matcher.toNat row 0 visited fuel

/-- Second loop of `tryAssign`: for each matching value `j` not yet visited,
mark it visited and try to reassign the matcher currently holding it. -/
def secondPass (g : matcherFlowGraph) (matcherN : Nat) (row : List Bool)
    (j : Nat) (visited : List Bool) :
    Nat → Res (matcherFlowGraph × List Bool × Bool)
  | 0 => .fuelOut
  | fuel + 1 =>
    match row with
    | [] => .ok (g, visited, false)
    | b :: rest =>
      if b then
        match visited[j]? with
        | none => .crash
        | some vj =>
          if vj then secondPass g matcherN rest (j + 1) visited fuel
          else
            let visited1 := visited.set j true
            match g.valToMatcher[j]? with
            | none => .crash
            | some vm =>
              match tryAssign g vm visited1 fuel with
              | .crash => .crash
              | .fuelOut => .fuelOut
              | .ok (g1, visited2, res) =>
                if res then
                  if matcherN < g1.matcherToVal.length ∧
                      j < g1.valToMatcher.length then
                    .ok ({ g1 with
                      valToMatcher := g1.valToMatcher.set j (Int.ofNat matcherN)
                      matcherToVal :=
                        g1.matcherToVal.set matcherN (Int.ofNat j) },
                      visited2, true)
                  else .crash
                else secondPass g1 matcherN rest (j + 1) visited2 fuel
      else secondPass g matcherN rest (j + 1) visited fuel

end

/-- Width of the matrix: `len(matchMatrix[0])` (0 when there are no rows). -/
def width : List (List Bool) → Nat
  | [] => 0
  | row0 :: _ => row0.length

/-- Fuel supplied to each `tryAssign` invocation made by `Solve`.  It is
proved below that this much fuel can never run out. -/
def solveFuel (mm : List (List Bool)) : Nat :=
  (mm.length + 1) * (width mm + 2)

/-- The `for matcher := range len(g.matchMatrix)` loop of `Solve`:
`k` iterations remain, the next matcher index is `i`.  Each iteration
allocates a fresh `visited` array of length `len(matchMatrix)`. -/
def solveLoop (g : matcherFlowGraph) : Nat → Nat → Res matcherFlowGraph
  | 0, _ => .ok g
  | k + 1, i =>
    let visited := List.replicate g.matchMatrix.length false
    match tryAssign g (Int.ofNat i) visited (solveFuel g.matchMatrix) with
    | .crash => .crash
    | .fuelOut => .fuelOut
    | .ok (g', _, _) => solveLoop g' k (i + 1)

/-- The final count: the number of entries of `matcherToVal` that are not
`-1`. -/
def countMatched (l : List Int) : Nat := (l.filter (fun e => e != -1)).length

/-- `matcherFlowGraph.Solve`: early return on an empty matrix, otherwise run
the augmenting-path search for every matcher in index order and count the
matchings. -/
def Solve (g : matcherFlowGraph) : Res matcherFlowGraph :=
  if g.matchMatrix.length = 0 ∨ width g.matchMatrix = 0 then .ok g
  else
    match solveLoop g g.matchMatrix.length 0 with
    | .crash => .crash
    | .fuelOut => .fuelOut
    | .ok g' => .ok { g' with matchersMatched := countMatched g'.matcherToVal }

/-- The `unorderedMatcher` struct: element matchers plus the mode flag
(`matchAll` is true for `ElementsAreUnordered`, false for `Contains`). -/
structure unorderedMatcher where
  elements : List Matcher
  matchAll : Bool

/-- The compatibility matrix built by `Matches`/`ExplainFailure`:
`matchMatrix[i][j] = m.elements[i].Matches(r.Index(j))`. -/
def buildMatrix (ms : List Matcher) (xs : List GoVal) : List (List Bool) :=
  ms.map (fun m => xs.map (fun v => m.Matches v))

/-- `validateMatchMatrix`: indices of all-false rows and all-false columns
(the latter scanned up to `w = r.Len()`, which is every row's length at all
call sites). -/
def validateMatchMatrix (matchMatrix : List (List Bool)) (w : Nat) :
    List Nat × List Nat :=
  ( (List.range matchMatrix.length).filter (fun i =>
      !((List.range w).any (fun j => ((matchMatrix[i]?.getD [])[j]?).getD false))),
    (List.range w).filter (fun j =>
      !(matchMatrix.any (fun row => (row[j]?).getD false))) )

/-- `unorderedMatcher.Matches`. -/
def unorderedMatcher.Matches (m : unorderedMatcher) (x : GoVal) : Res Bool :=
  match x with
  | .arr xs =>
    if m.matchAll ∧ xs.length ≠ m.elements.length then .ok false
    else if xs.length < m.elements.length then .ok false
    else
      let matchMatrix := buildMatrix m.elements xs
      let checks := validateMatchMatrix matchMatrix xs.length
      if 0 < checks.1.length then .ok false
      else if m.matchAll ∧ 0 < checks.2.length then .ok false
      else
        match Solve (newMatcherFlowGraph matchMatrix) with
        | .crash => .crash
        | .fuelOut => .fuelOut
        | .ok g => .ok (g.matchersMatched == m.elements.length)
  | _ => .ok false

/-- `Contains(elements...)`: subset mode. -/
def Contains (elements : List Matcher) : unorderedMatcher :=
  { elements := elements, matchAll := false }

/-- `ElementsAreUnordered(elements...)`: full-bijection mode. -/
def ElementsAreUnordered (elements : List Matcher) : unorderedMatcher :=
  { elements := elements, matchAll := true }

/-- The strings `"value %d -> matcher %d"` rendered by `ExplainFailure`, in
increasing value-index order, one per assigned value. -/
def pairStrings (valToMatcher : List Int) : List String :=
  (List.range valToMatcher.length).filterMap (fun i =>
    let e := (valToMatcher[i]?).getD (-1)
    if e ≠ -1 then
      some ("value " ++ toString i ++ " -> matcher " ++ toString e)
    else none)

/-- `unorderedMatcher.ExplainFailure` (returns the Go pair
`(string, bool)`). -/
def unorderedMatcher.ExplainFailure (m : unorderedMatcher) (val : GoVal) :
    Res (String × Bool) :=
  match val with
  | .arr xs =>
    if m.matchAll ∧ xs.length ≠ m.elements.length then
      .ok (toString m.elements.length ++ " elements expected but got " ++
        toString xs.length, true)
    else if xs.length < m.elements.length then
      .ok ("at least " ++ toString m.elements.length ++
        " elements expected but got " ++ toString xs.length, true)
    else
      let matchMatrix := buildMatrix m.elements xs
      let checks := validateMatchMatrix matchMatrix xs.length
      let matcherProblems := checks.1.map (fun i =>
        "matcher " ++ toString i ++ " matches no elements (wanted " ++
          ((m.elements[i]?).getD ⟨fun _ => false, ""⟩).str ++ ")")
      let noMatchProblems :=
        if m.matchAll then
          matcherProblems ++ checks.2.map (fun j =>
            "value " ++ toString j ++ " matches no matchers")
        else matcherProblems
      if 0 < noMatchProblems.length then
        .ok (String.intercalate "; " noMatchProblems, true)
      else
        match Solve (newMatcherFlowGraph matchMatrix) with
        | .crash => .crash
        | .fuelOut => .fuelOut
        | .ok g =>
          let problem :=
            if m.matchAll then
              "no permutation could pair all matchers and values, closest match is " ++
                toString g.matchersMatched ++ "/" ++
                toString m.elements.length ++ " with "
            else
              "no permutation could satisfy all matchers, closest match is " ++
                toString g.matchersMatched ++ "/" ++
                toString m.elements.length ++ " with "
          .ok (problem ++ String.intercalate "; " (pairStrings g.valToMatcher),
            true)
  | _ => .ok ("type " ++ val.tyName ++ " isn't iterable", true)

/-! ### Invariant predicates over the flow graph

These definitions support the statements of the theorems below.  Accessors
use `-1` (the source's sentinel) as the out-of-range default so that the
invariants can be stated by plain quantification over `Nat` indices. -/

/-- `matcherToVal[i]`, with `-1` for out-of-range `i`. -/
def mAt (g : matcherFlowGraph) (i : Nat) : Int := (g.matcherToVal[i]?).getD (-1)

/-- `valToMatcher[j]`, with `-1` for out-of-range `j`. -/
def vAt (g : matcherFlowGraph) (j : Nat) : Int := (g.valToMatcher[j]?).getD (-1)

/-- `matchMatrix[i][j]`, with `false` out of range. -/
def cell (mm : List (List Bool)) (i j : Nat) : Bool :=
  ((mm[i]?.getD [])[j]?).getD false

/-- `visited[j]`, with `false` out of range. -/
def vTrue (v : List Bool) (j : Nat) : Bool := (v[j]?).getD false

/-- Number of unvisited entries (the measure showing `solveFuel` suffices). -/
def countFalse (v : List Bool) : Nat := (v.filter (fun b => !b)).length

/-- Every row of the matrix has length `w`. -/
def Uniform (mm : List (List Bool)) (w : Nat) : Prop := ∀ r ∈ mm, r.length = w

/-- One direction of mutual consistency: every assigned matcher's value
points back at it. -/
def Cons1 (g : matcherFlowGraph) : Prop :=
  ∀ i, 0 ≤ mAt g i → vAt g (mAt g i).toNat = Int.ofNat i

/-- The other direction of mutual consistency: every assigned value's
matcher points back at it. -/
def Cons2 (g : matcherFlowGraph) : Prop :=
  ∀ j, 0 ≤ vAt g j → mAt g (vAt g j).toNat = Int.ofNat j

/-- Assigned pairs (seen from the matcher side) are edges of the matrix. -/
def Edge1 (g : matcherFlowGraph) : Prop :=
  ∀ i, 0 ≤ mAt g i → cell g.matchMatrix i (mAt g i).toNat = true

/-- Assigned pairs (seen from the value side) are edges of the matrix. -/
def Edge2 (g : matcherFlowGraph) : Prop :=
  ∀ j, 0 ≤ vAt g j → cell g.matchMatrix (vAt g j).toNat j = true

/-- `valToMatcher` entries are `-1` or valid matcher indices. -/
def VRng (g : matcherFlowGraph) : Prop :=
  ∀ j, -1 ≤ vAt g j ∧ vAt g j < (g.matchMatrix.length : Int)

/-- `matcherToVal` entries are never below `-1`. -/
def MRng (g : matcherFlowGraph) : Prop := ∀ i, -1 ≤ mAt g i

/-- Every visited value is assigned. -/
def VA (g : matcherFlowGraph) (v : List Bool) : Prop :=
  ∀ j, vTrue v j = true → vAt g j ≠ -1

/-- If the argument matcher of `tryAssign` is assigned, its current value is
already visited (true for the call from `Solve` — the matcher is unassigned —
and for every recursive call, which marks the value before recursing). -/
def VG (g : matcherFlowGraph) (matcherN : Nat) (v : List Bool) : Prop :=
  0 ≤ mAt g matcherN → vTrue v (mAt g matcherN).toNat = true

/-- Full mutual consistency of the two assignment arrays, bundled. -/
def Consistent (g : matcherFlowGraph) : Prop := Cons1 g ∧ Cons2 g

/-- Frame facts relating the state before and after a `tryAssign` call: the
matrix and array lengths are unchanged, visited entries only flip from false
to true, and assigned entries never become unassigned. -/
def Frame (g g' : matcherFlowGraph) (v v' : List Bool) : Prop :=
  g'.matchMatrix = g.matchMatrix ∧
  g'.valToMatcher.length = g.valToMatcher.length ∧
  g'.matcherToVal.length = g.matcherToVal.length ∧
  v'.length = v.length ∧
  (∀ j, vTrue v j = true → vTrue v' j = true) ∧
  countFalse v' ≤ countFalse v ∧
  (∀ j, vAt g j ≠ -1 → vAt g' j ≠ -1) ∧
  (∀ i, mAt g i ≠ -1 → mAt g' i ≠ -1)

/-- Matchers other than the call's argument never go from unassigned to
assigned. -/
def NoNewAssign (g g' : matcherFlowGraph) (mN : Nat) : Prop :=
  ∀ i, i ≠ mN → mAt g i = -1 → mAt g' i = -1

/-- Postcondition of a successful `tryAssign g mN` call started in state `g`
with visited array `v`: the result `g'` is consistent and edge-respecting,
except that the value previously assigned to `mN` (if any) still points at
`mN` — the caller relinks it.  Matchers whose assigned value was already
visited at entry, and visited values themselves, are untouched. -/
def SuccPost (g g' : matcherFlowGraph) (mN : Nat) (v : List Bool) : Prop :=
  Cons1 g' ∧ Edge1 g' ∧ Edge2 g' ∧
  (∀ j', 0 ≤ vAt g' j' → Int.ofNat j' ≠ mAt g mN →
    mAt g' (vAt g' j').toNat = Int.ofNat j') ∧
  0 ≤ mAt g' mN ∧
  (0 ≤ mAt g mN → vAt g' (mAt g mN).toNat = Int.ofNat mN ∧
    mAt g' mN ≠ mAt g mN) ∧
  (∀ i, i ≠ mN → 0 ≤ mAt g i → vTrue v (mAt g i).toNat = true →
    mAt g' i = mAt g i) ∧
  (∀ j', vTrue v j' = true → vAt g' j' = vAt g j')

/-- Postcondition of a failed `tryAssign g mN` call: the graph is unchanged,
every neighbour of `mN` is assigned and visited on exit, and every value
newly visited during the call is assigned to a matcher all of whose
neighbours are assigned and visited on exit (the failed-search cut used for
the completeness argument). -/
def FailPost (g : matcherFlowGraph) (mN : Nat) (v v' : List Bool) : Prop :=
  (∀ j', cell g.matchMatrix mN j' = true →
    vAt g j' ≠ -1 ∧ vTrue v' j' = true) ∧
  (∀ j', vTrue v' j' = true → vTrue v j' = false →
    0 ≤ vAt g j' ∧ ∀ j2, cell g.matchMatrix (vAt g j').toNat j2 = true →
      vAt g j2 ≠ -1 ∧ vTrue v' j2 = true)

/-- The invariant bundle maintained by the `Solve` loop. -/
def GInv (g : matcherFlowGraph) : Prop :=
  Cons1 g ∧ Cons2 g ∧ Edge1 g ∧ Edge2 g ∧ MRng g ∧ VRng g

/-- `FailPost` relativized to the row suffix scanned by `secondPass`. -/
def FailPostSP (g : matcherFlowGraph) (row : List Bool) (j : Nat)
    (v v' : List Bool) : Prop :=
  (∀ k, row[k]? = some true → vTrue v' (j + k) = true) ∧
  (∀ j', vTrue v' j' = true → vTrue v j' = false →
    0 ≤ vAt g j' ∧ ∀ j2, cell g.matchMatrix (vAt g j').toNat j2 = true →
      vAt g j2 ≠ -1 ∧ vTrue v' j2 = true)

/-- A matcher equivalent to `Eq(n)` on integer values. -/
def eqInt (n : Int) : Matcher :=
  ⟨fun v => match v with | .int m => m == n | _ => false,
   "is equal to " ++ toString n ++ " (int)"⟩

/-- A matcher equivalent to `Ge(n)` on integer values. -/
def geInt (n : Int) : Matcher :=
  ⟨fun v => match v with | .int m => n ≤ m | _ => false,
   "is greater than or equal to " ++ toString n ++ " (int)"⟩

example :
    (ElementsAreUnordered [eqInt 1, eqInt 2]).Matches
      (.arr [.int 2, .int 1]) = .ok true := rfl

example :
    (ElementsAreUnordered [eqInt 1, eqInt 1]).Matches
      (.arr [.int 2, .int 1]) = .ok false := rfl

example :
    (Contains [eqInt 5, eqInt 5]).Matches
      (.arr [.int 1, .int 2, .int 5]) = .crash := rfl

example :
    (Contains [geInt 5, eqInt 5]).Matches
      (.arr [.int 0, .int 1, .int 5, .int 6]) = .crash := rfl

example :
    (Contains [eqInt 5]).Matches (.arr [.int 1, .int 5]) = .ok true := rfl

example : (Contains [eqInt 5]).Matches (.str "abc") = .ok false := rfl

/-! ### Basic lemmas about the accessors -/

theorem getD_set_self {α : Type} (l : List α) (j : Nat) (x d : α)
    (h : j < l.length) : ((l.set j x)[j]?).getD d = x := by
  rw [List.getElem?_set]
  simp [h]

theorem getD_set_ne {α : Type} (l : List α) {j j' : Nat} (x : α) (d : α)
    (h : j ≠ j') : ((l.set j x)[j']?).getD d = (l[j']?).getD d := by
  rw [List.getElem?_set]
  simp [h]

theorem vTrue_lt {v : List Bool} {k : Nat} (h : vTrue v k = true) :
    k < v.length := by
  by_contra hk
  rw [vTrue, List.getElem?_eq_none (by omega)] at h
  simp at h

theorem vTrue_set_true {v : List Bool} {k : Nat} (j : Nat)
    (h : vTrue v k = true) : vTrue (v.set j true) k = true := by
  by_cases hjk : j = k
  · subst hjk
    rw [vTrue, getD_set_self _ _ _ _ (vTrue_lt h)]
  · rw [vTrue, getD_set_ne _ _ _ hjk]
    exact h

theorem vTrue_set_self {v : List Bool} {j : Nat} (h : j < v.length) :
    vTrue (v.set j true) j = true := by
  rw [vTrue, getD_set_self _ _ _ _ h]

theorem countFalse_cons (a : Bool) (t : List Bool) :
    countFalse (a :: t) = (if a then 0 else 1) + countFalse t := by
  cases a <;> simp [countFalse, List.filter_cons] <;> omega

theorem countFalse_set_true {v : List Bool} {j : Nat}
    (h : v[j]? = some false) : countFalse (v.set j true) + 1 = countFalse v := by
  induction v generalizing j with
  | nil => simp at h
  | cons a t ih =>
    cases j with
    | zero =>
      simp at h
      subst h
      simp [countFalse_cons]
      omega
    | succ n =>
      simp at h
      have := ih h
      simp only [List.set, countFalse_cons]
      omega

theorem countFalse_set_le (v : List Bool) (j : Nat) :
    countFalse (v.set j true) ≤ countFalse v := by
  induction v generalizing j with
  | nil => simp
  | cons a t ih =>
    cases j with
    | zero => cases a <;> simp [countFalse_cons]
    | succ n =>
      simp only [List.set, countFalse_cons]
      have := ih n
      omega

theorem goIdx_eq_some {α : Type} {l : List α} {i : Int} {a : α} :
    goIdx l i = some a ↔ 0 ≤ i ∧ l[i.toNat]? = some a := by
  unfold goIdx
  split
  · next h => simp [h]
  · next h => simp [h]

theorem frame_rfl (g : matcherFlowGraph) (v : List Bool) : Frame g g v v := by
  refine ⟨rfl, rfl, rfl, rfl, fun _ h => h, le_refl _, fun _ h => h, fun _ h => h⟩

theorem frame_trans {g g1 g2 : matcherFlowGraph} {v v1 v2 : List Bool}
    (h1 : Frame g g1 v v1) (h2 : Frame g1 g2 v1 v2) : Frame g g2 v v2 := by
  obtain ⟨a1, b1, c1, d1, e1, f1, i1, j1⟩ := h1
  obtain ⟨a2, b2, c2, d2, e2, f2, i2, j2⟩ := h2
  exact ⟨a2.trans a1, b2.trans b1, c2.trans c1, d2.trans d1,
    fun j h => e2 j (e1 j h), f2.trans f1,
    fun j h => i2 j (i1 j h), fun i h => j2 i (j1 i h)⟩

/-! ### Characterization of the two loops of `tryAssign` -/

theorem tryAssign_ok_valid {g : matcherFlowGraph} {matcher : Int}
    {v : List Bool} {fuel : Nat} {out}
    (h : tryAssign g matcher v fuel = .ok out) :
    0 ≤ matcher ∧ matcher.toNat < g.matchMatrix.length := by
  cases fuel with
  | zero => simp [tryAssign] at h
  | succ fuel =>
    rw [tryAssign] at h
    split at h
    · simp at h
    · next row hgi =>
      obtain ⟨h0, hrow⟩ := goIdx_eq_some.mp hgi
      exact ⟨h0, (List.getElem?_eq_some.mp hrow).1⟩

theorem firstPass_none {g : matcherFlowGraph} {mN : Nat} :
    ∀ {row : List Bool} {j0 : Nat}, firstPass g mN row j0 = some none →
      ∀ k, row[k]? = some true → vAt g (j0 + k) ≠ -1 := by
  intro row
  induction row with
  | nil => intro j0 _ k hk; simp at hk
  | cons b rest ih =>
    intro j0 h k hk
    rw [firstPass] at h
    split at h
    · next hb =>
      split at h
      · simp at h
      · next a hv =>
        split at h
        · split at h <;> simp at h
        · next ha =>
          cases k with
          | zero => rw [Nat.add_zero, vAt]; simp [hv, ha]
          | succ k' =>
            have hres := ih h k' (by simpa using hk)
            have heq : j0 + (k' + 1) = j0 + 1 + k' := by omega
            rw [heq]
            exact hres
    · next hb =>
      cases k with
      | zero => simp at hk; exact absurd hk hb
      | succ k' =>
        have hres := ih h k' (by simpa using hk)
        have heq : j0 + (k' + 1) = j0 + 1 + k' := by omega
        rw [heq]
        exact hres

theorem firstPass_found {g : matcherFlowGraph} {mN : Nat} :
    ∀ {row : List Bool} {j0 : Nat} {g2 : matcherFlowGraph},
    firstPass g mN row j0 = some (some g2) →
    ∃ k, row[k]? = some true ∧ g.valToMatcher[j0 + k]? = some (-1) ∧
      mN < g.matcherToVal.length ∧
      g2 = { g with
        matcherToVal := g.matcherToVal.set mN (Int.ofNat (j0 + k))
        valToMatcher := g.valToMatcher.set (j0 + k) (Int.ofNat mN) } := by
  intro row
  induction row with
  | nil => intro j0 g2 h; simp [firstPass] at h
  | cons b rest ih =>
    intro j0 g2 h
    rw [firstPass] at h
    split at h
    · next hb =>
      split at h
      · simp at h
      · next a hv =>
        split at h
        · next ha =>
          split at h
          · next hlen =>
            subst ha
            refine ⟨0, by simpa using hb, by simpa using hv, hlen, ?_⟩
            simp only [Option.some.injEq] at h
            rw [← h]
            simp
          · simp at h
        · obtain ⟨k, hk1, hk2, hk3, hk4⟩ := ih h
          have heq : j0 + (k + 1) = j0 + 1 + k := by omega
          exact ⟨k + 1, by simpa using hk1, by rw [heq]; exact hk2,
            hk3, by rw [heq]; exact hk4⟩
    · obtain ⟨k, hk1, hk2, hk3, hk4⟩ := ih h
      have heq : j0 + (k + 1) = j0 + 1 + k := by omega
      exact ⟨k + 1, by simpa using hk1, by rw [heq]; exact hk2,
        hk3, by rw [heq]; exact hk4⟩

theorem ofNat_ne_negOne (n : Nat) : Int.ofNat n ≠ -1 := by
  rw [Int.ofNat_eq_natCast]
  omega

theorem toNat_ofNat (n : Nat) : (Int.ofNat n).toNat = n := rfl

theorem frame_flip (g : matcherFlowGraph) (v : List Bool) (j : Nat) :
    Frame g g v (v.set j true) :=
  ⟨rfl, rfl, rfl, List.length_set v j true, fun _ hk => vTrue_set_true j hk,
    countFalse_set_le v j, fun _ h => h, fun _ h => h⟩

theorem frame_assign {g1 : matcherFlowGraph} {j mN : Nat} (v2 : List Bool)
    (hm : mN < g1.matcherToVal.length) (hj : j < g1.valToMatcher.length) :
    Frame g1
      { g1 with
        valToMatcher := g1.valToMatcher.set j (Int.ofNat mN)
        matcherToVal := g1.matcherToVal.set mN (Int.ofNat j) } v2 v2 := by
  refine ⟨rfl, List.length_set _ _ _, List.length_set _ _ _, rfl,
    fun _ h => h, le_refl _, ?_, ?_⟩
  · intro j' hj'
    show ((g1.valToMatcher.set j (Int.ofNat mN))[j']?).getD (-1) ≠ -1
    by_cases hjj : j = j'
    · subst hjj
      rw [getD_set_self _ _ _ _ hj]
      exact ofNat_ne_negOne mN
    · rw [getD_set_ne _ _ _ hjj]
      exact hj'
  · intro i hi
    show ((g1.matcherToVal.set mN (Int.ofNat j))[i]?).getD (-1) ≠ -1
    by_cases hmi : mN = i
    · subst hmi
      rw [getD_set_self _ _ _ _ hm]
      exact ofNat_ne_negOne j
    · rw [getD_set_ne _ _ _ hmi]
      exact hi

theorem vAt_assign_self {g1 : matcherFlowGraph} {j mN : Nat} {m2 : List Int}
    (hj : j < g1.valToMatcher.length) :
    vAt { g1 with valToMatcher := g1.valToMatcher.set j (Int.ofNat mN)
                  matcherToVal := m2 } j = Int.ofNat mN := by
  show ((g1.valToMatcher.set j (Int.ofNat mN))[j]?).getD (-1) = _
  rw [getD_set_self _ _ _ _ hj]

theorem vAt_assign_ne {g1 : matcherFlowGraph} {j mN : Nat} {m2 : List Int}
    {j' : Nat} (hjj : j ≠ j') :
    vAt { g1 with valToMatcher := g1.valToMatcher.set j (Int.ofNat mN)
                  matcherToVal := m2 } j' = vAt g1 j' := by
  show ((g1.valToMatcher.set j (Int.ofNat mN))[j']?).getD (-1) = _
  rw [getD_set_ne _ _ _ hjj]
  rfl

theorem mAt_assign_self {g1 : matcherFlowGraph} {j mN : Nat} {v2 : List Int}
    (hm : mN < g1.matcherToVal.length) :
    mAt { g1 with valToMatcher := v2
                  matcherToVal := g1.matcherToVal.set mN (Int.ofNat j) } mN =
      Int.ofNat j := by
  show ((g1.matcherToVal.set mN (Int.ofNat j))[mN]?).getD (-1) = _
  rw [getD_set_self _ _ _ _ hm]

theorem mAt_assign_ne {g1 : matcherFlowGraph} {j mN : Nat} {v2 : List Int}
    {i : Nat} (hmi : mN ≠ i) :
    mAt { g1 with valToMatcher := v2
                  matcherToVal := g1.matcherToVal.set mN (Int.ofNat j) } i =
      mAt g1 i := by
  show ((g1.matcherToVal.set mN (Int.ofNat j))[i]?).getD (-1) = _
  rw [getD_set_ne _ _ _ hmi]
  rfl

theorem getD_false_eq_true {l : List Bool} {k : Nat} :
    ((l[k]?).getD false = true) ↔ l[k]? = some true := by
  cases h : l[k]? <;> simp [h]

theorem cell_of_row {mm : List (List Bool)} {i : Nat} {row : List Bool}
    (h : mm[i]? = some row) (k : Nat) : cell mm i k = (row[k]?).getD false := by
  rw [cell, h]
  rfl

/-! ### Frame preservation through `tryAssign` (lemma M1)

Conditioned on a normal (`.ok`) return, a `tryAssign` call preserves the
frame facts, leaves the graph untouched when it returns false, assigns no
matcher other than its argument (given value-side consistency of the input
state), and preserves `VA` and `VRng`. -/

mutual

theorem m1_tryAssign (fuel : Nat) (g : matcherFlowGraph) (matcher : Int)
    (v : List Bool) (g' : matcherFlowGraph) (v' : List Bool) (b : Bool)
    (h : tryAssign g matcher v fuel = .ok (g', v', b)) :
    Frame g g' v v' ∧ (b = false → g' = g) ∧
      (Cons2 g → NoNewAssign g g' matcher.toNat) ∧
      (VA g v → VA g' v') ∧ (VRng g → VRng g') ∧ (MRng g → MRng g') := by
  cases fuel with
  | zero => simp [tryAssign] at h
  | succ fuel =>
    rw [tryAssign] at h
    split at h
    · simp at h
    · next row hgi =>
      obtain ⟨hm0, hrow⟩ := goIdx_eq_some.mp hgi
      have hmlt : matcher.toNat < g.matchMatrix.length :=
        (List.getElem?_eq_some.mp hrow).1
      split at h
      · simp at h
      · next g2 hfp =>
        simp only [Res.ok.injEq, Prod.mk.injEq] at h
        obtain ⟨rfl, rfl, rfl⟩ := h
        obtain ⟨k, _, hk2, hmv, rfl⟩ := firstPass_found hfp
        rw [Nat.zero_add] at hk2 ⊢
        have hkl : k < g.valToMatcher.length := (List.getElem?_eq_some.mp hk2).1
        refine ⟨frame_assign v hmv hkl, by simp, ?_, ?_, ?_, ?_⟩
        · intro _ i hi hmi
          rw [mAt_assign_ne (fun he => hi he.symm)]
          exact hmi
        · intro hva j' hj'
          by_cases hjk : k = j'
          · subst hjk
            rw [vAt_assign_self hkl]
            exact ofNat_ne_negOne _
          · rw [vAt_assign_ne hjk]
            exact hva j' hj'
        · intro hrng j'
          by_cases hjk : k = j'
          · subst hjk
            rw [vAt_assign_self hkl]
            constructor
            · rw [Int.ofNat_eq_natCast]; omega
            · show _ < ((g.matchMatrix.length : Nat) : Int)
              rw [Int.ofNat_eq_natCast]
              exact_mod_cast hmlt
          · rw [vAt_assign_ne hjk]
            exact hrng j'
        · intro hrng i
          by_cases hmi : matcher.toNat = i
          · subst hmi
            rw [mAt_assign_self hmv, Int.ofNat_eq_natCast]
            omega
          · rw [mAt_assign_ne hmi]
            exact hrng i
      · next hfp =>
        exact m1_secondPass fuel g matcher.toNat row 0 v g' v' b hmlt h

theorem m1_secondPass (fuel : Nat) (g : matcherFlowGraph) (mN : Nat)
    (row : List Bool) (j : Nat) (v : List Bool) (g' : matcherFlowGraph)
    (v' : List Bool) (b : Bool) (hmlt : mN < g.matchMatrix.length)
    (h : secondPass g mN row j v fuel = .ok (g', v', b)) :
    Frame g g' v v' ∧ (b = false → g' = g) ∧ (Cons2 g → NoNewAssign g g' mN) ∧
      (VA g v → VA g' v') ∧ (VRng g → VRng g') ∧ (MRng g → MRng g') := by
  rw [secondPass.eq_def] at h
  split at h
  · simp at h
  next fuel2 =>
  split at h
  · simp only [Res.ok.injEq, Prod.mk.injEq] at h
    obtain ⟨rfl, rfl, rfl⟩ := h
    exact ⟨frame_rfl g v, fun _ => rfl, fun _ _ _ hmi => hmi,
      fun hva => hva, fun hr => hr, fun hr => hr⟩
  · next b0 rest =>
    split at h
    · next hb0 =>
      split at h
      · simp at h
      · next vj hvj =>
        split at h
        · exact m1_secondPass fuel2 g mN rest (j + 1) v g' v' b hmlt h
        · next hvjf =>
          split at h
          · simp at h
          · next vm hvm =>
            dsimp only at h
            split at h
            · simp at h
            · simp at h
            · next g1 v2 res hta =>
              have IH1 := m1_tryAssign fuel2 g vm (v.set j true) g1 v2 res hta
              obtain ⟨hvm0, _⟩ := tryAssign_ok_valid hta
              have hvAtj : vAt g j = vm := by rw [vAt, hvm]; rfl
              have hvAtjne : vAt g j ≠ -1 := by
                rw [hvAtj]; omega
              have hVAstep : VA g v → VA g (v.set j true) := by
                intro hva j' hj'
                by_cases hjj : j = j'
                · subst hjj; exact hvAtjne
                · rw [vTrue, getD_set_ne _ _ _ hjj] at hj'
                  exact hva j' hj'
              split at h
              · next hres =>
                split at h
                · next hbnd =>
                  simp only [Res.ok.injEq, Prod.mk.injEq] at h
                  obtain ⟨rfl, rfl, rfl⟩ := h
                  obtain ⟨hbm, hbj⟩ := hbnd
                  have hmm1 : g1.matchMatrix = g.matchMatrix := IH1.1.1
                  refine ⟨frame_trans (frame_flip g v j)
                    (frame_trans IH1.1 (frame_assign v2 hbm hbj)), by simp,
                    ?_, ?_, ?_, ?_⟩
                  · intro hc i hi hmi
                    rw [mAt_assign_ne (fun he => hi he.symm)]
                    by_cases hivm : i = vm.toNat
                    · exfalso
                      have := hc j (by omega)
                      rw [hvAtj] at this
                      rw [← hivm] at this
                      rw [hmi] at this
                      exact ofNat_ne_negOne j this.symm
                    · exact IH1.2.2.1 hc i hivm hmi
                  · intro hva j' hj'
                    by_cases hjj : j = j'
                    · subst hjj
                      rw [vAt_assign_self hbj]
                      exact ofNat_ne_negOne _
                    · rw [vAt_assign_ne hjj]
                      exact IH1.2.2.2.1 (hVAstep hva) j' hj'
                  · intro hrng j'
                    have hrng1 := IH1.2.2.2.2.1 hrng
                    by_cases hjj : j = j'
                    · subst hjj
                      rw [vAt_assign_self hbj]
                      constructor
                      · rw [Int.ofNat_eq_natCast]; omega
                      · show Int.ofNat mN < (g1.matchMatrix.length : Int)
                        rw [hmm1, Int.ofNat_eq_natCast]
                        exact_mod_cast hmlt
                    · rw [vAt_assign_ne hjj]
                      exact hrng1 j'
                  · intro hrng i
                    by_cases hmi : mN = i
                    · subst hmi
                      rw [mAt_assign_self hbm, Int.ofNat_eq_natCast]
                      omega
                    · rw [mAt_assign_ne hmi]
                      exact IH1.2.2.2.2.2 hrng i
                · simp at h
              · next hres =>
                have hresf : res = false := by
                  cases res
                  · rfl
                  · exact absurd rfl hres
                have hg1 : g1 = g := IH1.2.1 hresf
                subst hg1
                have IH2 := m1_secondPass fuel2 g1 mN rest (j + 1) v2 g' v' b
                  hmlt h
                refine ⟨frame_trans (frame_flip g1 v j)
                  (frame_trans IH1.1 IH2.1), IH2.2.1, IH2.2.2.1, ?_,
                  IH2.2.2.2.2.1, IH2.2.2.2.2.2⟩
                intro hva
                exact IH2.2.2.2.1 (IH1.2.2.2.1 (hVAstep hva))
    · exact m1_secondPass fuel2 g mN rest (j + 1) v g' v' b hmlt h

end

/-! ### Consistency and cut postconditions of `tryAssign` (lemma A) -/

theorem frame_mono {g g' : matcherFlowGraph} {v v' : List Bool}
    (h : Frame g g' v v') : ∀ j, vTrue v j = true → vTrue v' j = true :=
  h.2.2.2.2.1

mutual

theorem a_tryAssign (fuel : Nat) (g : matcherFlowGraph) (matcher : Int)
    (v : List Bool) (g' : matcherFlowGraph) (v' : List Bool) (b : Bool)
    (hc1 : Cons1 g) (hc2 : Cons2 g) (he1 : Edge1 g) (he2 : Edge2 g)
    (hmr : MRng g) (hva : VA g v) (hvg : VG g matcher.toNat v)
    (h : tryAssign g matcher v fuel = .ok (g', v', b)) :
    (b = true → SuccPost g g' matcher.toNat v) ∧
      (b = false → FailPost g matcher.toNat v v') := by
  cases fuel with
  | zero => simp [tryAssign] at h
  | succ fuel =>
    rw [tryAssign] at h
    split at h
    · simp at h
    · next row hgi =>
      obtain ⟨hm0, hrow⟩ := goIdx_eq_some.mp hgi
      split at h
      · simp at h
      · next g2 hfp =>
        simp only [Res.ok.injEq, Prod.mk.injEq] at h
        obtain ⟨rfl, rfl, rfl⟩ := h
        obtain ⟨k, hk1, hk2, hmv, rfl⟩ := firstPass_found hfp
        rw [Nat.zero_add] at hk2 ⊢
        have hkl : k < g.valToMatcher.length := (List.getElem?_eq_some.mp hk2).1
        have hvAtk : vAt g k = -1 := by rw [vAt, hk2]; rfl
        have hcellk : cell g.matchMatrix matcher.toNat k = true := by
          rw [cell_of_row hrow, hk1]; rfl
        refine ⟨fun _ => ⟨?_, ?_, ?_, ?_, ?_, ?_, ?_, ?_⟩, by simp⟩
        · intro i hi
          rcases eq_or_ne i matcher.toNat with rfl | hne
          · rw [mAt_assign_self hmv, toNat_ofNat]
            exact vAt_assign_self hkl
          · rw [mAt_assign_ne hne.symm] at hi ⊢
            have hci := hc1 i hi
            have hkne : k ≠ (mAt g i).toNat := by
              intro hcontra
              rw [← hcontra, hvAtk] at hci
              exact ofNat_ne_negOne i hci.symm
            rw [vAt_assign_ne hkne]
            exact hci
        · intro i hi
          rcases eq_or_ne i matcher.toNat with rfl | hne
          · rw [mAt_assign_self hmv, toNat_ofNat]
            exact hcellk
          · rw [mAt_assign_ne hne.symm] at hi ⊢
            exact he1 i hi
        · intro j' hj'
          rcases eq_or_ne j' k with rfl | hne
          · rw [vAt_assign_self hkl, toNat_ofNat]
            exact hcellk
          · rw [vAt_assign_ne (Ne.symm hne)] at hj' ⊢
            exact he2 j' hj'
        · intro j' hj' hne2
          rcases eq_or_ne j' k with rfl | hne
          · rw [vAt_assign_self hkl, toNat_ofNat]
            exact mAt_assign_self hmv
          · rw [vAt_assign_ne (Ne.symm hne)] at hj' ⊢
            have hcj := hc2 j' hj'
            have hmne : matcher.toNat ≠ (vAt g j').toNat := by
              intro hcontra
              rw [← hcontra] at hcj
              exact hne2 hcj.symm
            rw [mAt_assign_ne hmne]
            exact hcj
        · rw [mAt_assign_self hmv, Int.ofNat_eq_natCast]
          omega
        · intro hex
          have hex1 := hc1 matcher.toNat hex
          have hkneex : k ≠ (mAt g matcher.toNat).toNat := by
            intro hcontra
            rw [← hcontra, hvAtk] at hex1
            exact ofNat_ne_negOne matcher.toNat hex1.symm
          constructor
          · rw [vAt_assign_ne hkneex]
            exact hex1
          · rw [mAt_assign_self hmv]
            intro hcontra
            apply hkneex
            rw [← hcontra, toNat_ofNat]
        · intro i hine _ _
          exact mAt_assign_ne hine.symm
        · intro j' hj'
          rcases eq_or_ne j' k with rfl | hne
          · exact absurd hvAtk (hva _ hj')
          · rw [vAt_assign_ne (Ne.symm hne)]
      · next hfp =>
        have hmlt : matcher.toNat < g.matchMatrix.length :=
          (List.getElem?_eq_some.mp hrow).1
        have hrow2 : ∀ k, row[k]? = some true →
            cell g.matchMatrix matcher.toNat (0 + k) = true := by
          intro k hk
          rw [Nat.zero_add, cell_of_row hrow, hk]
          rfl
        have hasg := firstPass_none hfp
        have IH := a_secondPass fuel g matcher.toNat row 0 v g' v' b hc1 hc2
          he1 he2 hmr hva hvg hrow2 hasg hmlt h
        refine ⟨IH.1, fun hbf => ?_⟩
        obtain ⟨f1, f2⟩ := IH.2 hbf
        refine ⟨?_, f2⟩
        intro j' hcell
        have hjr : row[j']? = some true := by
          rw [cell_of_row hrow] at hcell
          exact getD_false_eq_true.mp hcell
        exact ⟨by simpa using hasg j' hjr, by simpa using f1 j' hjr⟩

theorem a_secondPass (fuel : Nat) (g : matcherFlowGraph) (mN : Nat)
    (row : List Bool) (j : Nat) (v : List Bool) (g' : matcherFlowGraph)
    (v' : List Bool) (b : Bool)
    (hc1 : Cons1 g) (hc2 : Cons2 g) (he1 : Edge1 g) (he2 : Edge2 g)
    (hmr : MRng g) (hva : VA g v) (hvg : VG g mN v)
    (hrow : ∀ k, row[k]? = some true → cell g.matchMatrix mN (j + k) = true)
    (hasg : ∀ k, row[k]? = some true → vAt g (j + k) ≠ -1)
    (hmlt : mN < g.matchMatrix.length)
    (h : secondPass g mN row j v fuel = .ok (g', v', b)) :
    (b = true → SuccPost g g' mN v) ∧ (b = false → FailPostSP g row j v v') := by
  rw [secondPass.eq_def] at h
  split at h
  · simp at h
  next fuel2 =>
  split at h
  · simp only [Res.ok.injEq, Prod.mk.injEq] at h
    obtain ⟨rfl, rfl, rfl⟩ := h
    refine ⟨by simp, fun _ => ⟨fun k hk => by simp at hk, fun j' h1 h2 => ?_⟩⟩
    rw [h1] at h2
    cases h2
  · next b0 rest =>
    split at h
    · next hb0 =>
      split at h
      · simp at h
      · next vj hvj =>
        have hjvlen : j < v.length := (List.getElem?_eq_some.mp hvj).1
        have hrow' : ∀ k, rest[k]? = some true →
            cell g.matchMatrix mN (j + 1 + k) = true := by
          intro k hk
          have := hrow (k + 1) (by simpa using hk)
          rwa [show j + (k + 1) = j + 1 + k by omega] at this
        have hasg' : ∀ k, rest[k]? = some true → vAt g (j + 1 + k) ≠ -1 := by
          intro k hk
          have := hasg (k + 1) (by simpa using hk)
          rwa [show j + (k + 1) = j + 1 + k by omega] at this
        split at h
        · next hvjt =>
          have hvtj : vTrue v j = true := by
            rw [vTrue, hvj]
            simpa using hvjt
          have IH := a_secondPass fuel2 g mN rest (j + 1) v g' v' b hc1 hc2
            he1 he2 hmr hva hvg hrow' hasg' hmlt h
          refine ⟨IH.1, fun hbf => ?_⟩
          obtain ⟨f1, f2⟩ := IH.2 hbf
          have hmono := frame_mono
            (m1_secondPass fuel2 g mN rest (j + 1) v g' v' b hmlt h).1
          refine ⟨?_, f2⟩
          intro k hk
          cases k with
          | zero => rw [Nat.add_zero]; exact hmono j hvtj
          | succ k' =>
            have := f1 k' (by simpa using hk)
            rwa [show j + 1 + k' = j + (k' + 1) by omega] at this
        · next hvjf =>
          dsimp only at h
          split at h
          · simp at h
          · next vm hvm =>
            split at h
            · simp at h
            · simp at h
            · next g1 v2 res hta =>
              obtain ⟨hvm0, hvmlt⟩ := tryAssign_ok_valid hta
              have hvAtj : vAt g j = vm := by rw [vAt, hvm]; rfl
              have hvfj : vTrue v j = false := by
                rw [vTrue, hvj]
                cases vj with
                | false => rfl
                | true => exact absurd rfl hvjf
              have hCons2j : mAt g vm.toNat = Int.ofNat j := by
                have := hc2 j (by rw [hvAtj]; exact hvm0)
                rwa [hvAtj] at this
              have hVAv1 : VA g (v.set j true) := by
                intro j' hj'
                rcases eq_or_ne j j' with rfl | hne
                · rw [hvAtj]
                  omega
                · rw [vTrue, getD_set_ne _ _ _ hne] at hj'
                  exact hva j' hj'
              have hVGvm : VG g vm.toNat (v.set j true) := by
                intro _
                rw [hCons2j, toNat_ofNat]
                exact vTrue_set_self hjvlen
              have IHA := a_tryAssign fuel2 g vm (v.set j true) g1 v2 res hc1
                hc2 he1 he2 hmr hVAv1 hVGvm hta
              have IHM := m1_tryAssign fuel2 g vm (v.set j true) g1 v2 res hta
              have hmono12 := frame_mono IHM.1
              have hmono02 : ∀ j', vTrue v j' = true → vTrue v2 j' = true :=
                fun j' hj' => hmono12 j' (vTrue_set_true j hj')
              have hcell_j : cell g.matchMatrix mN j = true := by
                have := hrow 0 (by simpa using hb0)
                simpa using this
              split at h
              · next hres =>
                split at h
                · next hbnd =>
                  obtain ⟨hbm, hbj⟩ := hbnd
                  simp only [Res.ok.injEq, Prod.mk.injEq] at h
                  obtain ⟨rfl, rfl, rfl⟩ := h
                  obtain ⟨S1, S2, S3, S4, S5, S6, S7, S8⟩ := IHA.1 hres
                  rw [hCons2j] at S4 S6
                  obtain ⟨S6a, S6b⟩ := S6 (by rw [Int.ofNat_eq_natCast]; omega)
                  rw [toNat_ofNat] at S6a
                  have hmm1 : g1.matchMatrix = g.matchMatrix := IHM.1.1
                  have hNoNew := IHM.2.2.1 hc2
                  have hmNne : mN ≠ vm.toNat := by
                    intro hcontra
                    have hx : vTrue v j = true := by
                      have := hvg (by rw [hcontra, hCons2j, Int.ofNat_eq_natCast]; omega)
                      rwa [hcontra, hCons2j, toNat_ofNat] at this
                    rw [hx] at hvfj
                    cases hvfj
                  refine ⟨fun _ => ⟨?_, ?_, ?_, ?_, ?_, ?_, ?_, ?_⟩, by simp⟩
                  · intro i hi
                    rcases eq_or_ne i mN with rfl | hne
                    · rw [mAt_assign_self hbm, toNat_ofNat]
                      exact vAt_assign_self hbj
                    · rw [mAt_assign_ne hne.symm] at hi ⊢
                      have hci := S1 i hi
                      have hjne : j ≠ (mAt g1 i).toNat := by
                        intro hcontra
                        have hgol : vAt g1 j = Int.ofNat i := by
                          rw [hcontra]
                          exact hci
                        rw [S6a] at hgol
                        have hieq : vm.toNat = i := by
                          rw [Int.ofNat_eq_natCast, Int.ofNat_eq_natCast] at hgol
                          exact_mod_cast hgol
                        apply S6b
                        rw [hieq, Int.ofNat_eq_natCast]
                        omega
                      rw [vAt_assign_ne hjne]
                      exact hci
                  · intro i hi
                    rcases eq_or_ne i mN with rfl | hne
                    · rw [mAt_assign_self hbm, toNat_ofNat]
                      show cell g1.matchMatrix i j = true
                      rw [hmm1]
                      exact hcell_j
                    · rw [mAt_assign_ne hne.symm] at hi ⊢
                      exact S2 i hi
                  · intro j' hj'
                    rcases eq_or_ne j' j with rfl | hne
                    · rw [vAt_assign_self hbj, toNat_ofNat]
                      show cell g1.matchMatrix mN j' = true
                      rw [hmm1]
                      exact hcell_j
                    · rw [vAt_assign_ne (Ne.symm hne)] at hj' ⊢
                      exact S3 j' hj'
                  · intro j' hj' hne2
                    rcases eq_or_ne j' j with rfl | hne
                    · rw [vAt_assign_self hbj, toNat_ofNat]
                      exact mAt_assign_self hbm
                    · rw [vAt_assign_ne (Ne.symm hne)] at hj' ⊢
                      have hS4 := S4 j' hj' (by
                        intro hcontra
                        apply hne
                        rw [Int.ofNat_eq_natCast, Int.ofNat_eq_natCast] at hcontra
                        exact_mod_cast hcontra)
                      have hmne : mN ≠ (vAt g1 j').toNat := by
                        intro hcontra
                        rw [← hcontra] at hS4
                        by_cases hgm : mAt g mN = -1
                        · rw [hNoNew mN hmNne hgm] at hS4
                          exact ofNat_ne_negOne j' hS4.symm
                        · have hge : 0 ≤ mAt g mN := by
                            have := hmr mN
                            omega
                          have hfr := S7 mN hmNne hge
                            (vTrue_set_true j (hvg hge))
                          rw [hfr] at hS4
                          exact hne2 hS4.symm
                      rw [mAt_assign_ne hmne]
                      exact hS4
                  · rw [mAt_assign_self hbm, Int.ofNat_eq_natCast]
                    omega
                  · intro hex
                    have hexv := hvg hex
                    have hexne : (mAt g mN).toNat ≠ j := by
                      intro hcontra
                      rw [hcontra, hvfj] at hexv
                      cases hexv
                    constructor
                    · rw [vAt_assign_ne (Ne.symm hexne)]
                      rw [S8 _ (vTrue_set_true j hexv)]
                      exact hc1 mN hex
                    · rw [mAt_assign_self hbm]
                      intro hcontra
                      apply hexne
                      rw [← hcontra, toNat_ofNat]
                  · intro i hine hige hivt
                    rw [mAt_assign_ne hine.symm]
                    rcases eq_or_ne i vm.toNat with rfl | hivm
                    · exfalso
                      rw [hCons2j, toNat_ofNat] at hivt
                      rw [hivt] at hvfj
                      cases hvfj
                    · exact S7 i hivm hige (vTrue_set_true j hivt)
                  · intro j' hj'
                    have hjne : j ≠ j' := by
                      intro hcontra
                      rw [← hcontra, hvfj] at hj'
                      cases hj'
                    rw [vAt_assign_ne hjne]
                    exact S8 j' (vTrue_set_true j hj')
                · simp at h
              · next hres =>
                have hresf : res = false := by
                  cases res with
                  | false => rfl
                  | true => exact absurd rfl hres
                have hfail := IHA.2 hresf
                have hg1 : g1 = g := IHM.2.1 hresf
                rw [hg1] at h
                have hva2 : VA g v2 := by
                  have := IHM.2.2.2.1 hVAv1
                  rwa [hg1] at this
                have hvg2 : VG g mN v2 := fun hx => hmono02 _ (hvg hx)
                have IH2 := a_secondPass fuel2 g mN rest (j + 1) v2 g' v' b
                  hc1 hc2 he1 he2 hmr hva2 hvg2 hrow' hasg' hmlt h
                have hmono2' := frame_mono
                  (m1_secondPass fuel2 g mN rest (j + 1) v2 g' v' b hmlt h).1
                refine ⟨fun hbt => ?_, fun hbf => ?_⟩
                · obtain ⟨T1, T2, T3, T4, T5, T6, T7, T8⟩ := IH2.1 hbt
                  exact ⟨T1, T2, T3, T4, T5, T6,
                    fun i hi hg hv => T7 i hi hg (hmono02 _ hv),
                    fun j' hv => T8 j' (hmono02 _ hv)⟩
                · obtain ⟨f1, f2⟩ := IH2.2 hbf
                  refine ⟨?_, ?_⟩
                  · intro k hk
                    cases k with
                    | zero =>
                      rw [Nat.add_zero]
                      exact hmono2' j (hmono12 j (vTrue_set_self hjvlen))
                    | succ k' =>
                      have := f1 k' (by simpa using hk)
                      rwa [show j + 1 + k' = j + (k' + 1) by omega] at this
                  · intro j' hj' hvfalse
                    by_cases hv2 : vTrue v2 j' = true
                    · rcases eq_or_ne j' j with rfl | hne
                      · refine ⟨by rw [hvAtj]; exact hvm0, ?_⟩
                        intro j2 hcell2
                        rw [hvAtj] at hcell2
                        have := hfail.1 j2 hcell2
                        exact ⟨this.1, hmono2' j2 this.2⟩
                      · have hv1f : vTrue (v.set j true) j' = false := by
                          rw [vTrue, getD_set_ne _ _ _ (Ne.symm hne)]
                          exact hvfalse
                        have hnw := hfail.2 j' hv2 hv1f
                        exact ⟨hnw.1, fun j2 hcell2 =>
                          ⟨(hnw.2 j2 hcell2).1, hmono2' j2 (hnw.2 j2 hcell2).2⟩⟩
                    · have hv2f : vTrue v2 j' = false := by
                        cases hx : vTrue v2 j' with
                        | false => rfl
                        | true => exact absurd hx hv2
                      exact f2 j' hj' hv2f
    · next hb0 =>
      have hrow' : ∀ k, rest[k]? = some true →
          cell g.matchMatrix mN (j + 1 + k) = true := by
        intro k hk
        have := hrow (k + 1) (by simpa using hk)
        rwa [show j + (k + 1) = j + 1 + k by omega] at this
      have hasg' : ∀ k, rest[k]? = some true → vAt g (j + 1 + k) ≠ -1 := by
        intro k hk
        have := hasg (k + 1) (by simpa using hk)
        rwa [show j + (k + 1) = j + 1 + k by omega] at this
      have IH := a_secondPass fuel2 g mN rest (j + 1) v g' v' b hc1 hc2 he1
        he2 hmr hva hvg hrow' hasg' hmlt h
      refine ⟨IH.1, fun hbf => ?_⟩
      obtain ⟨f1, f2⟩ := IH.2 hbf
      refine ⟨?_, f2⟩
      intro k hk
      cases k with
      | zero =>
        simp at hk
        exact absurd hk hb0
      | succ k' =>
        have := f1 k' (by simpa using hk)
        rwa [show j + 1 + k' = j + (k' + 1) by omega] at this

end


/-! ### `Solve` supplies enough fuel and never goes out of bounds on a
square matrix (lemma NP) -/

theorem countFalse_replicate (n : Nat) :
    countFalse (List.replicate n false) = n := by
  induction n with
  | zero => rfl
  | succ k ih =>
    rw [List.replicate_succ, countFalse_cons, ih]
    show 1 + k = k + 1
    omega

theorem firstPass_no_crash {g : matcherFlowGraph} {mN : Nat} :
    ∀ {row : List Bool} {j0 : Nat},
    j0 + row.length ≤ g.valToMatcher.length →
    mN < g.matcherToVal.length →
    firstPass g mN row j0 ≠ none := by
  intro row
  induction row with
  | nil => intro j0 _ _ h; simp [firstPass] at h
  | cons b rest ih =>
    intro j0 hlen hmv h
    rw [firstPass] at h
    split at h
    · split at h
      · next hv =>
        rw [List.getElem?_eq_getElem (by simp at hlen ⊢; omega)] at hv
        cases hv
      · split at h
        · simp at h
        · exact ih (by simp at hlen ⊢; omega) hmv h
    · exact ih (by simp at hlen ⊢; omega) hmv h

mutual

theorem np_tryAssign (fuel : Nat) (g : matcherFlowGraph) (matcher : Int)
    (v : List Bool) (W : Nat)
    (hrows : ∀ r ∈ g.matchMatrix, r.length = W)
    (hvl : g.valToMatcher.length = W)
    (hml : g.matcherToVal.length = g.matchMatrix.length)
    (hvisl : W ≤ v.length)
    (hvr : VRng g)
    (hm0 : 0 ≤ matcher) (hmlt : matcher.toNat < g.matchMatrix.length)
    (hfuel : (countFalse v + 1) * (W + 2) ≤ fuel)
    (r : Res (matcherFlowGraph × List Bool × Bool))
    (hr : r = .crash ∨ r = .fuelOut)
    (h : tryAssign g matcher v fuel = r) : False := by
  have hexp : (countFalse v + 1) * (W + 2) =
      countFalse v * (W + 2) + (W + 2) := by ring
  cases fuel with
  | zero => omega
  | succ fuel =>
    rw [tryAssign] at h
    have hgi : goIdx g.matchMatrix matcher =
        some (g.matchMatrix[matcher.toNat]) := by
      rw [goIdx, if_pos hm0]
      exact List.getElem?_eq_getElem hmlt
    split at h
    · next hnone => rw [hgi] at hnone; cases hnone
    · next row hgi2 =>
      have hroweq : row = g.matchMatrix[matcher.toNat] := by
        rw [hgi] at hgi2
        exact (Option.some.inj hgi2).symm
      have hrowlen : row.length = W := by
        rw [hroweq]
        exact hrows _ (List.getElem_mem hmlt)
      split at h
      · next hfp =>
        exact firstPass_no_crash (by omega) (by omega) hfp
      · next g2 hfp =>
        rw [← h] at hr
        rcases hr with hr | hr <;> cases hr
      · next hfp =>
        exact np_secondPass fuel g matcher.toNat row 0 v W hrows hvl hml
          hvisl hvr hmlt (by omega) (firstPass_none hfp) (by omega) r hr h

theorem np_secondPass (fuel : Nat) (g : matcherFlowGraph) (mN : Nat)
    (row : List Bool) (j : Nat) (v : List Bool) (W : Nat)
    (hrows : ∀ r ∈ g.matchMatrix, r.length = W)
    (hvl : g.valToMatcher.length = W)
    (hml : g.matcherToVal.length = g.matchMatrix.length)
    (hvisl : W ≤ v.length)
    (hvr : VRng g)
    (hmlt : mN < g.matchMatrix.length)
    (hsuffix : j + row.length ≤ W)
    (hasg : ∀ k, row[k]? = some true → vAt g (j + k) ≠ -1)
    (hfuel : countFalse v * (W + 2) + row.length + 1 ≤ fuel)
    (r : Res (matcherFlowGraph × List Bool × Bool))
    (hr : r = .crash ∨ r = .fuelOut)
    (h : secondPass g mN row j v fuel = r) : False := by
  rw [secondPass.eq_def] at h
  split at h
  · omega
  next fuel2 =>
  split at h
  · rw [← h] at hr
    rcases hr with hr | hr <;> cases hr
  · next b0 rest =>
    have hasg' : ∀ k, rest[k]? = some true → vAt g (j + 1 + k) ≠ -1 := by
      intro k hk
      have := hasg (k + 1) (by simpa using hk)
      rwa [show j + (k + 1) = j + 1 + k by omega] at this
    have hjW : j + rest.length + 1 ≤ W := by
      have hx := hsuffix
      simp at hx
      omega
    have hfW : countFalse v * (W + 2) + rest.length + 2 ≤ fuel2 + 1 := by
      have hx := hfuel
      simp at hx
      omega
    split at h
    · next hb0 =>
      split at h
      · next hvnone =>
        rw [List.getElem?_eq_getElem (by omega)] at hvnone
        cases hvnone
      · next vj hvj =>
        split at h
        · exact np_secondPass fuel2 g mN rest (j + 1) v W hrows hvl hml hvisl
            hvr hmlt (by omega) hasg'
            (by omega) r hr h
        · next hvjf =>
          dsimp only at h
          have hvjfalse : v[j]? = some false := by
            rw [hvj]
            cases vj with
            | false => rfl
            | true => exact absurd rfl hvjf
          have hcf : countFalse (v.set j true) + 1 = countFalse v :=
            countFalse_set_true hvjfalse
          have hBC : countFalse (v.set j true) * (W + 2) + (W + 2) =
              countFalse v * (W + 2) := by
            rw [← hcf]; ring
          split at h
          · next hvmnone =>
            rw [List.getElem?_eq_getElem (by omega)] at hvmnone
            cases hvmnone
          · next vm hvm =>
            have hvAtj : vAt g j = vm := by rw [vAt, hvm]; rfl
            have hvm0 : 0 ≤ vm := by
              have h1 := hasg 0 (by simpa using hb0)
              rw [Nat.add_zero, hvAtj] at h1
              have h2 := (hvr j).1
              rw [hvAtj] at h2
              omega
            have hvmlt : vm.toNat < g.matchMatrix.length := by
              have h2 := (hvr j).2
              rw [hvAtj] at h2
              omega
            have hfuelTA : (countFalse (v.set j true) + 1) * (W + 2) ≤
                fuel2 := by
              have hDC : (countFalse (v.set j true) + 1) * (W + 2) =
                  countFalse (v.set j true) * (W + 2) + (W + 2) := by ring
              omega
            split at h
            · next hta =>
              exact np_tryAssign fuel2 g vm (v.set j true) W hrows hvl hml
                (by rw [List.length_set]; omega) hvr hvm0 hvmlt hfuelTA
                .crash (Or.inl rfl) hta
            · next hta =>
              exact np_tryAssign fuel2 g vm (v.set j true) W hrows hvl hml
                (by rw [List.length_set]; omega) hvr hvm0 hvmlt hfuelTA
                .fuelOut (Or.inr rfl) hta
            · next g1 v2 res hta =>
              have IHM := m1_tryAssign fuel2 g vm (v.set j true) g1 v2 res hta
              split at h
              · split at h
                · rw [← h] at hr
                  rcases hr with hr | hr <;> cases hr
                · next hbnd =>
                  apply hbnd
                  constructor
                  · rw [IHM.1.2.2.1]
                    omega
                  · rw [IHM.1.2.1]
                    omega
              · next hres =>
                have hresf : res = false := by
                  cases res with
                  | false => rfl
                  | true => exact absurd rfl hres
                have hg1 : g1 = g := IHM.2.1 hresf
                rw [hg1] at h
                have hlv2 : v2.length = (v.set j true).length :=
                  IHM.1.2.2.2.1
                have hcf2 : countFalse v2 ≤ countFalse (v.set j true) :=
                  IHM.1.2.2.2.2.2.1
                have hA : countFalse v2 * (W + 2) ≤
                    countFalse (v.set j true) * (W + 2) :=
                  Nat.mul_le_mul_right _ hcf2
                exact np_secondPass fuel2 g mN rest (j + 1) v2 W hrows hvl
                  hml (by rw [hlv2, List.length_set]; omega) hvr hmlt
                  (by omega) hasg'
                  (by omega) r hr h
    · exact np_secondPass fuel2 g mN rest (j + 1) v W hrows hvl hml hvisl
        hvr hmlt (by omega) hasg'
        (by omega) r hr h

end

/-! ### The `Solve` loop: invariant preservation and completeness -/

theorem vTrue_replicate_false (n j : Nat) :
    vTrue (List.replicate n false) j = false := by
  rw [vTrue, List.getElem?_replicate]
  split <;> rfl

theorem countMatched_eq_length {l : List Int} :
    countMatched l = l.length ↔ ∀ e ∈ l, e ≠ -1 := by
  rw [countMatched, ← List.countP_eq_length_filter, List.countP_eq_length]
  constructor
  · intro h e he
    simpa using h e he
  · intro h e he
    simpa using h e he

theorem countMatched_le_length (l : List Int) : countMatched l ≤ l.length :=
  List.length_filter_le _ l

theorem mAt_ne_iff {g : matcherFlowGraph} :
    (∀ i, i < g.matcherToVal.length → mAt g i ≠ -1) ↔
      ∀ e ∈ g.matcherToVal, e ≠ -1 := by
  constructor
  · intro h e he
    obtain ⟨i, hi, rfl⟩ := List.mem_iff_getElem.mp he
    have := h i hi
    rwa [mAt, List.getElem?_eq_getElem hi] at this
  · intro h i hi
    rw [mAt, List.getElem?_eq_getElem hi]
    exact h _ (List.getElem_mem hi)

theorem ginv_new (mm : List (List Bool)) : GInv (newMatcherFlowGraph mm) := by
  have hm : ∀ i, mAt (newMatcherFlowGraph mm) i = -1 := by
    intro i
    rw [mAt]
    show ((List.replicate mm.length (-1 : Int))[i]?).getD (-1) = -1
    rw [List.getElem?_replicate]
    split <;> rfl
  have hv : ∀ j, vAt (newMatcherFlowGraph mm) j = -1 := by
    intro j
    rw [vAt]
    cases mm with
    | nil => rfl
    | cons r t =>
      show ((List.replicate r.length (-1 : Int))[j]?).getD (-1) = -1
      rw [List.getElem?_replicate]
      split <;> rfl
  refine ⟨fun i hi => ?_, fun j hj => ?_, fun i hi => ?_, fun j hj => ?_,
    fun i => ?_, fun j => ?_⟩
  · rw [hm i] at hi
    omega
  · rw [hv j] at hj
    omega
  · rw [hm i] at hi
    omega
  · rw [hv j] at hj
    omega
  · rw [hm i]
  · rw [hv j]
    constructor
    · omega
    · omega

theorem solveLoop_post :
    ∀ (k i : Nat) (g g' : matcherFlowGraph),
    GInv g → (∀ idx, i ≤ idx → mAt g idx = -1) →
    solveLoop g k i = .ok g' →
    GInv g' ∧ g'.matchMatrix = g.matchMatrix ∧
      g'.valToMatcher.length = g.valToMatcher.length ∧
      g'.matcherToVal.length = g.matcherToVal.length ∧
      (∀ idx, mAt g idx ≠ -1 → mAt g' idx ≠ -1) := by
  intro k
  induction k with
  | zero =>
    intro i g g' hg _ h
    rw [solveLoop] at h
    simp only [Res.ok.injEq] at h
    subst h
    exact ⟨hg, rfl, rfl, rfl, fun _ hi => hi⟩
  | succ k ih =>
    intro i g g' hg hun h
    rw [solveLoop] at h
    split at h
    · simp at h
    · simp at h
    · next g1 v1 res hta =>
      obtain ⟨hc1, hc2, he1, he2, hmr, hvr⟩ := hg
      have hinat : (Int.ofNat i).toNat = i := rfl
      have IHM := m1_tryAssign _ g (Int.ofNat i)
        (List.replicate g.matchMatrix.length false) g1 v1 res hta
      have hgi1 : GInv g1 ∧ (∀ idx, i + 1 ≤ idx → mAt g1 idx = -1) := by
        cases res with
        | false =>
          have hg1 : g1 = g := IHM.2.1 rfl
          subst hg1
          exact ⟨⟨hc1, hc2, he1, he2, hmr, hvr⟩,
            fun idx hidx => hun idx (by omega)⟩
        | true =>
          have hS := (a_tryAssign _ g (Int.ofNat i)
            (List.replicate g.matchMatrix.length false) g1 v1 true hc1 hc2
            he1 he2 hmr
            (fun j hj => by rw [vTrue_replicate_false] at hj; cases hj)
            (fun hx => by rw [hinat, hun i (le_refl i)] at hx; omega)
            hta).1 rfl
          obtain ⟨S1, S2, S3, S4, S5, S6, S7, S8⟩ := hS
          rw [hinat] at S4
          rw [hun i (le_refl i)] at S4
          refine ⟨⟨S1, ?_, S2, S3, IHM.2.2.2.2.2 hmr, IHM.2.2.2.2.1 hvr⟩,
            ?_⟩
          · intro j hj
            exact S4 j hj (ofNat_ne_negOne j)
          · intro idx hidx
            have := IHM.2.2.1 hc2 idx (by rw [hinat]; omega)
            exact this (hun idx (by omega))
      obtain ⟨hgi1a, hgi1b⟩ := hgi1
      have IH2 := ih (i + 1) g1 g' hgi1a hgi1b h
      refine ⟨IH2.1, IH2.2.1.trans IHM.1.1, IH2.2.2.1.trans IHM.1.2.1,
        IH2.2.2.2.1.trans IHM.1.2.2.1, ?_⟩
      intro idx hidx
      exact IH2.2.2.2.2 idx (IHM.1.2.2.2.2.2.2.2 idx hidx)

/-- A failed augmenting search from an unassigned matcher, started with a
fresh visited array, contradicts the existence of an injective assignment
that satisfies every matcher: the visited values and their matchers form a
Hall violator. -/
theorem hall_contra {g : matcherFlowGraph} {kN W : Nat} {v' : List Bool}
    (hc2 : Cons2 g) (hvr : VRng g)
    (hk : mAt g kN = -1) (hkN : kN < g.matchMatrix.length)
    (hfail : FailPost g kN (List.replicate g.matchMatrix.length false) v')
    (F : Fin g.matchMatrix.length → Fin W)
    (hFinj : Function.Injective F)
    (hFcell : ∀ iF : Fin g.matchMatrix.length,
      cell g.matchMatrix iF.val (F iF).val = true) : False := by
  classical
  have hVmem' : ∀ j, vTrue v' j = true →
      j ∈ (Finset.range v'.length).filter (fun j => vTrue v' j = true) := by
    intro j hj
    exact Finset.mem_filter.mpr ⟨Finset.mem_range.mpr (vTrue_lt hj), hj⟩
  have hnew : ∀ j ∈ (Finset.range v'.length).filter
      (fun j => vTrue v' j = true), 0 ≤ vAt g j ∧
      ∀ j2, cell g.matchMatrix (vAt g j).toNat j2 = true →
        vAt g j2 ≠ -1 ∧ vTrue v' j2 = true := by
    intro j hj
    exact hfail.2 j (Finset.mem_filter.mp hj).2
      (vTrue_replicate_false g.matchMatrix.length j)
  have himglt : ∀ j ∈ (Finset.range v'.length).filter
      (fun j => vTrue v' j = true), (vAt g j).toNat < g.matchMatrix.length := by
    intro j hj
    have h1 := (hnew j hj).1
    have h2 := (hvr j).2
    omega
  have hinjv : Set.InjOn (fun j => (vAt g j).toNat)
      ((Finset.range v'.length).filter (fun j => vTrue v' j = true)) := by
    intro j1 h1 j2 h2 heq
    have h1' := Finset.mem_coe.mp h1
    have h2' := Finset.mem_coe.mp h2
    have hm1 := hc2 j1 (hnew j1 h1').1
    have hm2 := hc2 j2 (hnew j2 h2').1
    simp only at heq
    rw [heq] at hm1
    have hoeq : Int.ofNat j1 = Int.ofNat j2 := by rw [← hm1, hm2]
    rw [Int.ofNat_eq_natCast, Int.ofNat_eq_natCast] at hoeq
    exact_mod_cast hoeq
  have hknotin : kN ∉ ((Finset.range v'.length).filter
      (fun j => vTrue v' j = true)).image (fun j => (vAt g j).toNat) := by
    intro hmem
    obtain ⟨j, hj, hje⟩ := Finset.mem_image.mp hmem
    have hcc := hc2 j (hnew j hj).1
    rw [hje, hk] at hcc
    exact ofNat_ne_negOne j hcc.symm
  have hcardS :
      (insert kN (((Finset.range v'.length).filter
        (fun j => vTrue v' j = true)).image (fun j => (vAt g j).toNat))).card =
      ((Finset.range v'.length).filter
        (fun j => vTrue v' j = true)).card + 1 := by
    rw [Finset.card_insert_of_not_mem hknotin,
      Finset.card_image_of_injOn hinjv]
  have hSlt : ∀ i ∈ insert kN (((Finset.range v'.length).filter
      (fun j => vTrue v' j = true)).image (fun j => (vAt g j).toNat)),
      i < g.matchMatrix.length := by
    intro i hi
    rcases Finset.mem_insert.mp hi with rfl | hi
    · exact hkN
    · obtain ⟨j, hj, rfl⟩ := Finset.mem_image.mp hi
      exact himglt j hj
  have hmapsto : ∀ i ∈ insert kN (((Finset.range v'.length).filter
      (fun j => vTrue v' j = true)).image (fun j => (vAt g j).toNat)),
      (fun i => if h : i < g.matchMatrix.length then (F ⟨i, h⟩).val else 0) i ∈
        (Finset.range v'.length).filter (fun j => vTrue v' j = true) := by
    intro i hi
    have hilt := hSlt i hi
    simp only [dif_pos hilt]
    rcases Finset.mem_insert.mp hi with rfl | hi2
    · exact hVmem' _ (hfail.1 _ (hFcell ⟨i, hilt⟩)).2
    · obtain ⟨j, hj, rfl⟩ := Finset.mem_image.mp hi2
      have hx := (hnew j hj).2 (F ⟨(vAt g j).toNat, hilt⟩).val (hFcell _)
      exact hVmem' _ hx.2
  have hinj2 : Set.InjOn
      (fun i => if h : i < g.matchMatrix.length then (F ⟨i, h⟩).val else 0)
      (↑(insert kN (((Finset.range v'.length).filter
        (fun j => vTrue v' j = true)).image (fun j => (vAt g j).toNat)) :
        Finset Nat) : Set Nat) := by
    intro i1 h1 i2 h2 heq
    have hl1 := hSlt i1 (Finset.mem_coe.mp h1)
    have hl2 := hSlt i2 (Finset.mem_coe.mp h2)
    simp only [dif_pos hl1, dif_pos hl2] at heq
    have hfe : F ⟨i1, hl1⟩ = F ⟨i2, hl2⟩ := Fin.val_injective heq
    exact congrArg Fin.val (hFinj hfe)
  have hle := Finset.card_le_card_of_injOn _ hmapsto hinj2
  omega

/-- If an injective assignment satisfying every matcher exists, every
iteration of the `Solve` loop succeeds, and afterwards every matcher up to
the loop bound is assigned. -/
theorem solveLoop_complete (mm : List (List Bool)) (W : Nat)
    (F : Fin mm.length → Fin W)
    (hFinj : Function.Injective F)
    (hFcell : ∀ iF : Fin mm.length, cell mm iF.val (F iF).val = true)
    (hrows : ∀ r ∈ mm, r.length = W)
    (hWN : W ≤ mm.length) :
    ∀ (k i : Nat) (g : matcherFlowGraph),
    g.matchMatrix = mm →
    GInv g →
    g.valToMatcher.length = W →
    g.matcherToVal.length = mm.length →
    (∀ idx, i ≤ idx → mAt g idx = -1) →
    (∀ idx, idx < i → mAt g idx ≠ -1) →
    i + k = mm.length →
    ∃ g', solveLoop g k i = .ok g' ∧
      ∀ idx, idx < mm.length → mAt g' idx ≠ -1 := by
  intro k
  induction k with
  | zero =>
    intro i g hgmm hg hvl hml hun hdone hik
    exact ⟨g, rfl, fun idx hidx => hdone idx (by omega)⟩
  | succ k ih =>
    intro i g hgmm hg hvl hml hun hdone hik
    obtain ⟨hc1, hc2, he1, he2, hmr, hvr⟩ := hg
    have hilt : i < mm.length := by omega
    have hinat : (Int.ofNat i).toNat = i := rfl
    have hmmlen : g.matchMatrix.length = mm.length := by rw [hgmm]
    have hwidth : width g.matchMatrix = W := by
      rw [hgmm]
      cases mm with
      | nil => simp at hilt
      | cons r t => exact hrows r (by simp)
    have hnp : ∀ r2, (r2 = .crash ∨ r2 = .fuelOut) →
        tryAssign g (Int.ofNat i) (List.replicate g.matchMatrix.length false)
          (solveFuel g.matchMatrix) = r2 → False := by
      intro r2 hr2 hr2e
      refine np_tryAssign _ g (Int.ofNat i)
        (List.replicate g.matchMatrix.length false) W
        (by rw [hgmm]; exact hrows) hvl (by rw [hml, hmmlen])
        (by rw [List.length_replicate]; omega) hvr
        (by rw [Int.ofNat_eq_natCast]; omega)
        (by rw [hinat, hmmlen]; exact hilt) ?_ r2 hr2 hr2e
      rw [countFalse_replicate, solveFuel, hwidth, hmmlen]
    rcases hres : tryAssign g (Int.ofNat i)
        (List.replicate g.matchMatrix.length false)
        (solveFuel g.matchMatrix) with ⟨⟨g1, v1, res⟩⟩ | _ | _
    rotate_left
    · exact absurd hres (fun hx => hnp _ (Or.inl rfl) hx)
    · exact absurd hres (fun hx => hnp _ (Or.inr rfl) hx)
    have IHM := m1_tryAssign _ g (Int.ofNat i)
      (List.replicate g.matchMatrix.length false) g1 v1 res hres
    have hVAfresh : VA g (List.replicate g.matchMatrix.length false) :=
      fun j hj => by rw [vTrue_replicate_false] at hj; cases hj
    have hVGfresh : VG g (Int.ofNat i).toNat
        (List.replicate g.matchMatrix.length false) :=
      fun hx => by rw [hinat, hun i (le_refl i)] at hx; omega
    have IHA := a_tryAssign _ g (Int.ofNat i)
      (List.replicate g.matchMatrix.length false) g1 v1 res hc1 hc2 he1 he2
      hmr hVAfresh hVGfresh hres
    cases res with
    | false =>
      exfalso
      have hfail : FailPost g i (List.replicate g.matchMatrix.length false)
          v1 := IHA.2 rfl
      have hlencast : g.matchMatrix.length = mm.length := hmmlen
      refine hall_contra hc2 hvr (hun i (le_refl i)) (by omega) hfail
        (fun iF => F (Fin.cast hlencast iF))
        (hFinj.comp (Fin.cast_injective hlencast)) ?_
      have hcellc : ∀ a b : Nat, cell g.matchMatrix a b = cell mm a b := by
        rw [hgmm]
        intro a b
        rfl
      intro iF
      rw [hcellc]
      exact hFcell (Fin.cast hlencast iF)
    | true =>
      obtain ⟨S1, S2, S3, S4, S5, S6, S7, S8⟩ := IHA.1 rfl
      rw [hinat] at S4
      rw [hun i (le_refl i)] at S4
      have hc2' : Cons2 g1 := fun j hj => S4 j hj (ofNat_ne_negOne j)
      have hun' : ∀ idx, i + 1 ≤ idx → mAt g1 idx = -1 := by
        intro idx hidx
        have := IHM.2.2.1 hc2 idx (by rw [hinat]; omega)
        exact this (hun idx (by omega))
      have hdone' : ∀ idx, idx < i + 1 → mAt g1 idx ≠ -1 := by
        intro idx hidx
        rcases Nat.lt_succ_iff_lt_or_eq.mp hidx with hlt | heq
        · exact IHM.1.2.2.2.2.2.2.2 idx (hdone idx hlt)
        · have S5' : (0:Int) ≤ mAt g1 i := S5
          rw [heq]
          omega
      obtain ⟨g', hloop, hall⟩ := ih (i + 1) g1 (IHM.1.1.trans hgmm)
        ⟨S1, hc2', S2, S3, IHM.2.2.2.2.2 hmr, IHM.2.2.2.2.1 hvr⟩
        (IHM.1.2.1.trans hvl) (by rw [IHM.1.2.2.1, hml]) hun' hdone'
        (by omega)
      refine ⟨g', ?_, hall⟩
      rw [solveLoop]
      simp only [hres]
      exact hloop

theorem mAt_new (mm : List (List Bool)) (i : Nat) :
    mAt (newMatcherFlowGraph mm) i = -1 := by
  rw [mAt]
  show ((List.replicate mm.length (-1 : Int))[i]?).getD (-1) = -1
  rw [List.getElem?_replicate]
  split <;> rfl

theorem vAt_new (mm : List (List Bool)) (j : Nat) :
    vAt (newMatcherFlowGraph mm) j = -1 := by
  rw [vAt]
  cases mm with
  | nil => rfl
  | cons r t =>
    show ((List.replicate r.length (-1 : Int))[j]?).getD (-1) = -1
    rw [List.getElem?_replicate]
    split <;> rfl

theorem countMatched_replicate_neg (n : Nat) :
    countMatched (List.replicate n (-1 : Int)) = 0 := by
  induction n with
  | zero => rfl
  | succ k ih =>
    rw [List.replicate_succ, countMatched, List.filter_cons]
    simp only [show ((-1 : Int) != -1) = false from rfl]
    exact ih

/-- What `Solve` guarantees about its result on a freshly built graph:
the loop invariants hold, the matrix and array lengths are unchanged, and
the reported count is the number of assigned matchers. -/
theorem solve_new_post (mm : List (List Bool)) (g' : matcherFlowGraph)
    (h : Solve (newMatcherFlowGraph mm) = .ok g') :
    GInv g' ∧ g'.matchMatrix = mm ∧
    g'.valToMatcher.length = (newMatcherFlowGraph mm).valToMatcher.length ∧
    g'.matcherToVal.length = mm.length ∧
    g'.matchersMatched = countMatched g'.matcherToVal := by
  rw [Solve] at h
  split at h
  · simp only [Res.ok.injEq] at h
    subst h
    refine ⟨ginv_new mm, rfl, rfl, by
      show (List.replicate mm.length (-1 : Int)).length = mm.length
      rw [List.length_replicate], ?_⟩
    show 0 = countMatched (List.replicate mm.length (-1 : Int))
    rw [countMatched_replicate_neg]
  · split at h
    · cases h
    · cases h
    next g0 hloop =>
      simp only [Res.ok.injEq] at h
      subst h
      have hpost := solveLoop_post mm.length 0 (newMatcherFlowGraph mm) g0
        (ginv_new mm) (fun idx _ => mAt_new mm idx) hloop
      refine ⟨hpost.1, hpost.2.1, hpost.2.2.1, ?_, rfl⟩
      rw [hpost.2.2.2.1]
      show (List.replicate mm.length (-1 : Int)).length = mm.length
      rw [List.length_replicate]

/-- If an injective, all-satisfying assignment exists for a square uniform
matrix, `Solve` on the fresh graph succeeds and reports a full matching. -/
theorem solve_new_complete (mm : List (List Bool)) (W : Nat)
    (hrows : ∀ r ∈ mm, r.length = W) (hWN : W = mm.length)
    (F : Fin mm.length → Fin W)
    (hFinj : Function.Injective F)
    (hFcell : ∀ iF : Fin mm.length, cell mm iF.val (F iF).val = true) :
    ∃ g', Solve (newMatcherFlowGraph mm) = .ok g' ∧
      g'.matchersMatched = mm.length := by
  cases mm with
  | nil => exact ⟨newMatcherFlowGraph [], rfl, rfl⟩
  | cons r t =>
    have hW : width (r :: t) = W := hrows r (by simp)
    have hcond : ¬((newMatcherFlowGraph (r :: t)).matchMatrix.length = 0 ∨
        width (newMatcherFlowGraph (r :: t)).matchMatrix = 0) := by
      intro hc
      rcases hc with hc | hc
      · simp [newMatcherFlowGraph] at hc
      · rw [show (newMatcherFlowGraph (r :: t)).matchMatrix = r :: t from rfl,
          hW] at hc
        rw [hc] at hWN
        simp at hWN
    obtain ⟨g0, hloop, hall⟩ := solveLoop_complete (r :: t) W F hFinj hFcell
      hrows (le_of_eq hWN) (r :: t).length 0 (newMatcherFlowGraph (r :: t))
      rfl (ginv_new _)
      (by
        show (List.replicate r.length (-1 : Int)).length = W
        rw [List.length_replicate]
        exact hrows r (by simp))
      (by
        show (List.replicate (r :: t).length (-1 : Int)).length =
          (r :: t).length
        rw [List.length_replicate])
      (fun idx _ => mAt_new _ idx) (fun idx hidx => absurd hidx (by omega))
      (by omega)
    have hlen0 : g0.matcherToVal.length = (r :: t).length := by
      have hpost := solveLoop_post (r :: t).length 0 (newMatcherFlowGraph
        (r :: t)) g0 (ginv_new _) (fun idx _ => mAt_new _ idx) hloop
      rw [hpost.2.2.2.1]
      show (List.replicate (r :: t).length (-1 : Int)).length = (r :: t).length
      rw [List.length_replicate]
    refine ⟨{ g0 with matchersMatched := countMatched g0.matcherToVal }, ?_, ?_⟩
    · rw [Solve, if_neg hcond]
      have hloop' : solveLoop (newMatcherFlowGraph (r :: t))
          (newMatcherFlowGraph (r :: t)).matchMatrix.length 0 = .ok g0 := hloop
      rw [hloop']
    · show countMatched g0.matcherToVal = (r :: t).length
      rw [← hlen0]
      rw [countMatched_eq_length]
      rw [← mAt_ne_iff]
      intro i hi
      exact hall i (by omega)

theorem buildMatrix_length (ms : List Matcher) (xs : List GoVal) :
    (buildMatrix ms xs).length = ms.length := by
  rw [buildMatrix, List.length_map]

theorem buildMatrix_uniform (ms : List Matcher) (xs : List GoVal) :
    Uniform (buildMatrix ms xs) xs.length := by
  intro r hr
  rw [buildMatrix] at hr
  obtain ⟨m, _, rfl⟩ := List.mem_map.mp hr
  rw [List.length_map]

theorem cell_buildMatrix (ms : List Matcher) (xs : List GoVal) (i j : Nat) :
    cell (buildMatrix ms xs) i j = true ↔
    ∃ (hi : i < ms.length) (hj : j < xs.length),
      (ms.get ⟨i, hi⟩).Matches (xs.get ⟨j, hj⟩) = true := by
  rw [cell, buildMatrix]
  by_cases hi : i < ms.length
  · have h1 : (List.map (fun m => List.map (fun v => m.Matches v) xs) ms)[i]? =
        some (List.map (fun v => (ms.get ⟨i, hi⟩).Matches v) xs) := by
      rw [List.getElem?_map, List.getElem?_eq_getElem hi]
      rfl
    rw [h1]
    show ((List.map (fun v => (ms.get ⟨i, hi⟩).Matches v) xs)[j]?).getD false =
      true ↔ _
    by_cases hj : j < xs.length
    · have h2 : (List.map (fun v => (ms.get ⟨i, hi⟩).Matches v) xs)[j]? =
          some ((ms.get ⟨i, hi⟩).Matches (xs.get ⟨j, hj⟩)) := by
        rw [List.getElem?_map, List.getElem?_eq_getElem hj]
        rfl
      rw [h2]
      show (ms.get ⟨i, hi⟩).Matches (xs.get ⟨j, hj⟩) = true ↔ _
      constructor
      · intro h
        exact ⟨hi, hj, h⟩
      · rintro ⟨_, _, h⟩
        exact h
    · have h2 : (List.map (fun v => (ms.get ⟨i, hi⟩).Matches v) xs)[j]? =
          none := by
        rw [List.getElem?_map, List.getElem?_eq_none (by omega)]
        rfl
      rw [h2]
      simp [hj]
  · have h1 : (List.map (fun m => List.map (fun v => m.Matches v) xs) ms)[i]? =
        none := by
      rw [List.getElem?_map, List.getElem?_eq_none (by omega)]
      rfl
    rw [h1]
    simp [hi]

theorem mem_of_getElem_some {α : Type} {l : List α} {i : Nat} {a : α}
    (h : l[i]? = some a) : a ∈ l := by
  obtain ⟨hlt, heq⟩ := List.getElem?_eq_some_iff.mp h
  rw [← heq]
  exact List.getElem_mem hlt

theorem cell_lt {mm : List (List Bool)} {W i j : Nat} (hrows : Uniform mm W)
    (h : cell mm i j = true) : i < mm.length ∧ j < W := by
  rw [cell] at h
  rcases hmi : mm[i]? with _ | row
  · rw [hmi] at h
    simp at h
  · rw [hmi] at h
    have h2 : (row[j]?).getD false = true := h
    have hrm : row ∈ mm := mem_of_getElem_some hmi
    have hjr : j < row.length := by
      rcases hrj : row[j]? with _ | b
      · rw [hrj] at h2
        simp at h2
      · exact (List.getElem?_eq_some_iff.mp hrj).1
    refine ⟨?_, by rw [← hrows row hrm]; exact hjr⟩
    rcases Nat.lt_or_ge i mm.length with hlt | hge
    · exact hlt
    · rw [List.getElem?_eq_none hge] at hmi
      cases hmi

theorem validate_fst_nil (mm : List (List Bool)) (w : Nat)
    (h : ∀ i, i < mm.length → ∃ j, j < w ∧ cell mm i j = true) :
    (validateMatchMatrix mm w).1 = [] := by
  rw [validateMatchMatrix]
  refine List.filter_eq_nil_iff.mpr ?_
  intro a ha
  obtain ⟨j, hj, hcell⟩ := h a (List.mem_range.mp ha)
  simp only [Bool.not_eq_true, Bool.not_eq_false']
  refine List.any_eq_true.mpr ⟨j, List.mem_range.mpr hj, ?_⟩
  rw [cell] at hcell
  exact hcell

theorem validate_snd_nil (mm : List (List Bool)) (w : Nat)
    (h : ∀ j, j < w → ∃ i, cell mm i j = true) :
    (validateMatchMatrix mm w).2 = [] := by
  rw [validateMatchMatrix]
  refine List.filter_eq_nil_iff.mpr ?_
  intro a ha
  obtain ⟨i, hcell⟩ := h a (List.mem_range.mp ha)
  simp only [Bool.not_eq_true, Bool.not_eq_false']
  rw [cell] at hcell
  rcases hmi : mm[i]? with _ | row
  · rw [hmi] at hcell
    simp at hcell
  · rw [hmi] at hcell
    have hcell2 : (row[a]?).getD false = true := hcell
    exact List.any_eq_true.mpr ⟨row, mem_of_getElem_some hmi, hcell2⟩

theorem validate_fst_pos (mm : List (List Bool)) (w : Nat) (i : Nat)
    (hi : i < mm.length) (h : ∀ j, j < w → cell mm i j = false) :
    0 < (validateMatchMatrix mm w).1.length := by
  have hmem : i ∈ (validateMatchMatrix mm w).1 := by
    rw [validateMatchMatrix]
    refine List.mem_filter.mpr ⟨List.mem_range.mpr hi, ?_⟩
    simp only [Bool.not_eq_true']
    refine List.any_eq_false.mpr ?_
    intro j hj
    have := h j (List.mem_range.mp hj)
    rw [cell] at this
    simp [this]
  exact List.length_pos_of_mem hmem

/-- A fully matched `Solve` result yields an injective, matrix-respecting
assignment of matchers to values, with `valToMatcher` pointing back. -/
theorem solve_extract (mm : List (List Bool)) (W : Nat)
    (g' : matcherFlowGraph) (hrows : Uniform mm W)
    (hok : Solve (newMatcherFlowGraph mm) = .ok g')
    (hfull : g'.matchersMatched = mm.length) :
    ∃ F : Fin mm.length → Fin W, Function.Injective F ∧
      (∀ iF : Fin mm.length, cell mm iF.val (F iF).val = true) ∧
      (∀ iF : Fin mm.length, vAt g' (F iF).val = Int.ofNat iF.val) := by
  obtain ⟨⟨hc1, hc2, he1, he2, hmr, hvr⟩, hmm, hvl, hml, hcount⟩ :=
    solve_new_post mm g' hok
  have hcm : countMatched g'.matcherToVal = g'.matcherToVal.length := by
    rw [hml, ← hcount]
    exact hfull
  have hassigned : ∀ i, i < mm.length → mAt g' i ≠ -1 := by
    intro i hi
    refine mAt_ne_iff.mpr (countMatched_eq_length.mp hcm) i ?_
    rw [hml]
    exact hi
  have h0 : ∀ i, i < mm.length → 0 ≤ mAt g' i := by
    intro i hi
    have := hmr i
    have := hassigned i hi
    omega
  have hcellm : ∀ i, i < mm.length → cell mm i (mAt g' i).toNat = true := by
    intro i hi
    have := he1 i (h0 i hi)
    rwa [hmm] at this
  have hbound : ∀ i, i < mm.length → (mAt g' i).toNat < W := fun i hi =>
    (cell_lt hrows (hcellm i hi)).2
  refine ⟨fun iF => ⟨(mAt g' iF.val).toNat, hbound iF.val iF.isLt⟩, ?_, ?_, ?_⟩
  · intro a b hab
    simp only [Fin.mk.injEq] at hab
    have ha := hc1 a.val (h0 a.val a.isLt)
    have hb := hc1 b.val (h0 b.val b.isLt)
    rw [hab, hb] at ha
    exact Fin.ext (Int.ofNat.inj ha).symm
  · intro iF
    exact hcellm iF.val iF.isLt
  · intro iF
    exact hc1 iF.val (h0 iF.val iF.isLt)

/-- On a square matrix, a fully matched `Solve` result leaves no value
unassigned either: the matching is a perfect bijection. -/
theorem solve_values_covered (mm : List (List Bool))
    (g' : matcherFlowGraph) (hrows : Uniform mm mm.length)
    (hok : Solve (newMatcherFlowGraph mm) = .ok g')
    (hfull : g'.matchersMatched = mm.length) :
    ∀ j, j < mm.length → vAt g' j ≠ -1 := by
  obtain ⟨F, hFinj, hFcell, hFlink⟩ :=
    solve_extract mm mm.length g' hrows hok hfull
  have hFbij : Function.Bijective F :=
    (Finite.injective_iff_bijective).mp hFinj
  intro j hj
  obtain ⟨iF, hiF⟩ := hFbij.2 ⟨j, hj⟩
  have hlink := hFlink iF
  rw [hiF] at hlink
  show vAt g' j ≠ -1
  rw [show j = (Fin.mk j hj : Fin mm.length).val from rfl, hlink]
  exact ofNat_ne_negOne iF.val

/-- The loop-level completeness result specialized to the counting facts
needed by the invariant claims: a fully counted `Solve` result has every
matcher assigned. -/
theorem solve_all_assigned (mm : List (List Bool)) (g' : matcherFlowGraph)
    (hok : Solve (newMatcherFlowGraph mm) = .ok g')
    (hfull : g'.matchersMatched = mm.length) :
    ∀ i, i < mm.length → mAt g' i ≠ -1 := by
  obtain ⟨_, _, _, hml, hcount⟩ := solve_new_post mm g' hok
  have hcm : countMatched g'.matcherToVal = g'.matcherToVal.length := by
    rw [hml, ← hcount]
    exact hfull
  intro i hi
  refine mAt_ne_iff.mpr (countMatched_eq_length.mp hcm) i ?_
  rw [hml]
  exact hi

/-- C2: the claim is false of the code — the augmenting-path search indexes
the per-attempt `visited` array (length `len(matchMatrix)`, the matcher
count) by a value index, which is out of range in subset mode when the
value has more elements than there are matchers, a Go runtime panic. -/
theorem claim_C2_matches_panics :
    (Contains [eqInt 5, eqInt 5]).Matches (.arr [.int 1, .int 2, .int 5]) =
      .crash := rfl

/-- C3: the claimed equivalence fails on the code: here the value is an
array with `len(x) ≥ len(ms)` and an injective assignment giving each
matcher a distinct accepted element exists, yet `Matches` panics (crashes)
instead of returning true. -/
theorem claim_C3_subset_iff_fails :
    (Contains [geInt 5, eqInt 5]).Matches
        (.arr [.int 0, .int 1, .int 5, .int 6]) = .crash ∧
    (2 : Nat) ≤ 4 ∧
    ∃ F : Fin 2 → Fin 4, Function.Injective F ∧
      ∀ i : Fin 2, (([geInt 5, eqInt 5].get i).Matches
        ([(.int 0 : GoVal), .int 1, .int 5, .int 6].get
          (Fin.cast (by decide) (F i)))) = true := by
  refine ⟨rfl, by decide, ⟨fun i => if i = 0 then 3 else 2, by decide, by decide⟩⟩

/-- C7: on this input every matcher individually matches some element and
the maximum matching (size 1) is smaller than the matcher count 2, so the
claim requires a "closest match is 1/2" diagnostic; instead `ExplainFailure`
panics via the same out-of-range `visited` index. -/
theorem claim_C7_diagnostic_panics :
    (Contains [eqInt 5, eqInt 5]).ExplainFailure
        (.arr [.int 7, .int 8, .int 5]) = .crash ∧
    (∀ i : Fin 2, ∃ j : Fin 3,
      cell (buildMatrix [eqInt 5, eqInt 5] [.int 7, .int 8, .int 5])
        i.val j.val = true) ∧
    ¬∃ F : Fin 2 → Fin 3, Function.Injective F ∧
      ∀ i : Fin 2, cell (buildMatrix [eqInt 5, eqInt 5]
        [.int 7, .int 8, .int 5]) i.val (F i).val = true := by
  refine ⟨rfl, by decide, by decide⟩

/-- C9: on a value that is not an array or slice, `Matches` is false and
`ExplainFailure` reports the type-mismatch diagnostic, for every element
list and both modes — in particular no element matcher's verdict can
influence the result. -/
theorem claim_C9_type_mismatch (ms : List Matcher) (mall : Bool) (x : GoVal)
    (hx : ∀ xs : List GoVal, x ≠ .arr xs) :
    unorderedMatcher.Matches ⟨ms, mall⟩ x = .ok false ∧
    unorderedMatcher.ExplainFailure ⟨ms, mall⟩ x =
      .ok ("type " ++ x.tyName ++ " isn't iterable", true) := by
  cases x with
  | arr xs => exact absurd rfl (hx xs)
  | int n => exact ⟨rfl, rfl⟩
  | str s => exact ⟨rfl, rfl⟩
  | other t => exact ⟨rfl, rfl⟩

theorem claim_C9_witness :
    (∀ xs : List GoVal, (GoVal.int 3) ≠ .arr xs) ∧
    (unorderedMatcher.Matches ⟨[], false⟩ (.int 3) = .ok false ∧
     unorderedMatcher.ExplainFailure ⟨[], false⟩ (.int 3) =
       .ok ("type " ++ (GoVal.int 3).tyName ++ " isn't iterable", true)) :=
  ⟨fun xs h => GoVal.noConfusion h,
   claim_C9_type_mismatch [] false (.int 3)
     (fun xs h => GoVal.noConfusion h)⟩

/-- C6: with no element matchers, subset mode matches every array/slice and
full mode matches exactly the empty one; values of any other kind are still
rejected by both. -/
theorem claim_C6_empty_matchers (xs : List GoVal) (x : GoVal)
    (hx : ∀ ys : List GoVal, x ≠ .arr ys) :
    (Contains []).Matches (.arr xs) = .ok true ∧
    ((ElementsAreUnordered []).Matches (.arr xs) = .ok true ↔ xs = []) ∧
    (Contains []).Matches x = .ok false ∧
    (ElementsAreUnordered []).Matches x = .ok false := by
  refine ⟨rfl, ?_, ?_, ?_⟩
  · cases xs with
    | nil => exact ⟨fun _ => rfl, fun _ => rfl⟩
    | cons y t =>
      constructor
      · intro h
        simp [unorderedMatcher.Matches, ElementsAreUnordered] at h
      · intro h
        cases h
  · cases x with
    | arr ys => exact absurd rfl (hx ys)
    | int n => rfl
    | str s => rfl
    | other t => rfl
  · cases x with
    | arr ys => exact absurd rfl (hx ys)
    | int n => rfl
    | str s => rfl
    | other t => rfl

theorem claim_C6_witness :
    (∀ ys : List GoVal, (GoVal.str "a") ≠ .arr ys) ∧
    ((Contains []).Matches (.arr [.int 1]) = .ok true ∧
     ((ElementsAreUnordered []).Matches (.arr [.int 1]) = .ok true ↔
       ([(.int 1 : GoVal)] = [])) ∧
     (Contains []).Matches (.str "a") = .ok false ∧
     (ElementsAreUnordered []).Matches (.str "a") = .ok false) :=
  ⟨fun ys h => GoVal.noConfusion h,
   claim_C6_empty_matchers [.int 1] (.str "a")
     (fun ys h => GoVal.noConfusion h)⟩

/-- C5: if some matcher's row of the compatibility matrix is all false (it
accepts no element of the value), `Matches` returns false in either mode;
the pre-check decides this before the assignment search runs. -/
theorem claim_C5_all_false_row (m : unorderedMatcher) (xs : List GoVal)
    (i : Nat) (hi : i < m.elements.length)
    (hrow : ∀ j, j < xs.length →
      cell (buildMatrix m.elements xs) i j = false) :
    m.Matches (.arr xs) = .ok false := by
  have hpos : 0 <
      (validateMatchMatrix (buildMatrix m.elements xs) xs.length).1.length :=
    validate_fst_pos _ _ i (by rw [buildMatrix_length]; exact hi) hrow
  simp only [unorderedMatcher.Matches]
  rw [if_pos hpos]
  simp only [ite_self]

theorem claim_C5_witness :
    (0 < (Contains [eqInt 1]).elements.length ∧
     ∀ j, j < [(.int 2 : GoVal)].length →
       cell (buildMatrix (Contains [eqInt 1]).elements [.int 2]) 0 j =
         false) ∧
    (Contains [eqInt 1]).Matches (.arr [.int 2]) = .ok false :=
  ⟨⟨by decide, by decide⟩,
   claim_C5_all_false_row (Contains [eqInt 1]) [.int 2] 0 (by decide)
     (by decide)⟩

/-- C1: `ElementsAreUnordered(ms...).Matches(x)` is true exactly when `x` is
an array/slice whose length equals the matcher count and some bijection
pairs each matcher with a distinct element it accepts. -/
theorem claim_C1_full_mode_iff (ms : List Matcher) (x : GoVal) :
    (ElementsAreUnordered ms).Matches x = .ok true ↔
    ∃ xs : List GoVal, x = .arr xs ∧ xs.length = ms.length ∧
      ∃ F : Fin ms.length → Fin xs.length, Function.Bijective F ∧
        ∀ i : Fin ms.length, (ms.get i).Matches (xs.get (F i)) = true := by
  constructor
  · intro h
    cases x with
    | int n => simp [unorderedMatcher.Matches, ElementsAreUnordered] at h
    | str st => simp [unorderedMatcher.Matches, ElementsAreUnordered] at h
    | other t => simp [unorderedMatcher.Matches, ElementsAreUnordered] at h
    | arr xs =>
      refine ⟨xs, rfl, ?_⟩
      simp only [unorderedMatcher.Matches, ElementsAreUnordered] at h
      split at h
      · simp at h
      next hcnd1 =>
        have hlen : xs.length = ms.length := by
          by_contra hne
          exact hcnd1 ⟨trivial, hne⟩
        split at h
        · simp at h
        split at h
        · simp at h
        split at h
        · simp at h
        split at h
        · simp at h
        · simp at h
        next g hsolve =>
          simp only [Res.ok.injEq] at h
          have hfull : g.matchersMatched = ms.length := by
            simpa using h
          refine ⟨hlen, ?_⟩
          have hml : (buildMatrix ms xs).length = ms.length :=
            buildMatrix_length ms xs
          obtain ⟨F0, hFinj, hFcell, _⟩ := solve_extract (buildMatrix ms xs)
            xs.length g (buildMatrix_uniform ms xs) hsolve
            (by rw [hml]; exact hfull)
          refine ⟨fun i => F0 (Fin.cast hml.symm i), ?_, ?_⟩
          · rw [Fintype.bijective_iff_injective_and_card]
            refine ⟨hFinj.comp (Fin.cast_injective hml.symm), ?_⟩
            simp [Fintype.card_fin, hlen]
          · intro i
            have hc := hFcell (Fin.cast hml.symm i)
            obtain ⟨hi2, hj2, hmatch⟩ := (cell_buildMatrix ms xs _ _).mp hc
            exact hmatch
  · rintro ⟨xs, rfl, hlen, F, hFbij, hFacc⟩
    have hml : (buildMatrix ms xs).length = ms.length :=
      buildMatrix_length ms xs
    have hcellF : ∀ i : Fin ms.length,
        cell (buildMatrix ms xs) i.val (F i).val = true := by
      intro i
      exact (cell_buildMatrix ms xs i.val (F i).val).mpr
        ⟨i.isLt, (F i).isLt, hFacc i⟩
    have hfst : (validateMatchMatrix (buildMatrix ms xs) xs.length).1 =
        [] := by
      refine validate_fst_nil _ _ ?_
      intro i0 hi0
      have hi0' : i0 < ms.length := by rw [hml] at hi0; exact hi0
      exact ⟨(F ⟨i0, hi0'⟩).val, (F ⟨i0, hi0'⟩).isLt, hcellF ⟨i0, hi0'⟩⟩
    have hsnd : (validateMatchMatrix (buildMatrix ms xs) xs.length).2 =
        [] := by
      refine validate_snd_nil _ _ ?_
      intro j0 hj0
      obtain ⟨i0, hi0⟩ := hFbij.2 ⟨j0, hj0⟩
      refine ⟨i0.val, ?_⟩
      have hcc := hcellF i0
      rw [hi0] at hcc
      exact hcc
    obtain ⟨g', hok, hfull⟩ := solve_new_complete (buildMatrix ms xs)
      xs.length (buildMatrix_uniform ms xs) (by rw [hml]; exact hlen)
      (fun i => F (Fin.cast hml i)) (hFbij.1.comp (Fin.cast_injective hml))
      (fun i => hcellF (Fin.cast hml i))
    simp only [unorderedMatcher.Matches, ElementsAreUnordered]
    rw [if_neg (fun hc => hc.2 hlen)]
    rw [if_neg (by omega)]
    rw [if_neg (by simp [hfst])]
    rw [if_neg (by simp [hsnd])]
    simp only [hok]
    simp [hfull, hml]

/-- C4: a full-bijection success implies subset success on the same matcher
list and value — the subset run reaches the same deterministic `Solve` call
and count comparison. -/
theorem claim_C4_full_implies_subset (ms : List Matcher) (x : GoVal)
    (h : (ElementsAreUnordered ms).Matches x = .ok true) :
    (Contains ms).Matches x = .ok true := by
  cases x with
  | int n => simp [unorderedMatcher.Matches, ElementsAreUnordered] at h
  | str st => simp [unorderedMatcher.Matches, ElementsAreUnordered] at h
  | other t => simp [unorderedMatcher.Matches, ElementsAreUnordered] at h
  | arr xs =>
    simp only [unorderedMatcher.Matches, ElementsAreUnordered] at h
    split at h
    · simp at h
    next hcnd1 =>
      have hlen : xs.length = ms.length := by
        by_contra hne
        exact hcnd1 ⟨trivial, hne⟩
      split at h
      · simp at h
      split at h
      next hc3 => simp at h
      next hc3 =>
        split at h
        next hc4 => simp at h
        next hc4 =>
          split at h
          · simp at h
          · simp at h
          next g hsolve =>
            simp only [unorderedMatcher.Matches, Contains]
            rw [if_neg (fun hc => Bool.noConfusion hc.1)]
            rw [if_neg (by omega)]
            rw [if_neg hc3]
            rw [if_neg (fun hc => Bool.noConfusion hc.1)]
            simp only [hsolve]
            exact h

theorem claim_C4_witness :
    (ElementsAreUnordered [eqInt 7]).Matches (.arr [.int 7]) = .ok true ∧
    (Contains [eqInt 7]).Matches (.arr [.int 7]) = .ok true :=
  ⟨rfl, claim_C4_full_implies_subset [eqInt 7] (.arr [.int 7]) rfl⟩

/-- C8: false as stated — "after every successful assignment step" includes
the return of an inner recursive `tryAssign`, and there the two arrays are
momentarily inconsistent: from the reachable state below (matcher 1's
augmenting search, value 0 visited), the inner call for matcher 0 succeeds
and returns `valToMatcher = [0, 0]`, `matcherToVal = [1, -1]`, where
`valToMatcher[0] = 0` but `matcherToVal[0] = 1 ≠ 0`; the caller only
restores consistency afterwards by relinking value 0. -/
theorem claim_C8_counterexample :
    tryAssign ⟨[[true, true], [true, false]], [0, -1], [0, -1], 0⟩
        (Int.ofNat 0) [true, false] 20 =
      .ok (⟨[[true, true], [true, false]], [0, 0], [1, -1], 0⟩,
        [true, false], true) ∧
    vAt ⟨[[true, true], [true, false]], [0, 0], [1, -1], 0⟩ 0 =
      Int.ofNat 0 ∧
    mAt ⟨[[true, true], [true, false]], [0, 0], [1, -1], 0⟩ 0 ≠
      Int.ofNat 0 := by
  refine ⟨rfl, rfl, by decide⟩

/-- C8 (amended): mutual consistency of the two assignment arrays holds
after `Solve` returns (equivalently, after each completed top-level
assignment step), rather than after every inner recursive step; and on
full-mode success (square matrix, full count) no index on either side is
left unassigned. -/
theorem claim_C8_amended (mm : List (List Bool)) (g' : matcherFlowGraph)
    (hok : Solve (newMatcherFlowGraph mm) = .ok g') :
    (∀ i j : Nat, mAt g' i = Int.ofNat j → vAt g' j = Int.ofNat i) ∧
    (∀ i j : Nat, vAt g' j = Int.ofNat i → mAt g' i = Int.ofNat j) ∧
    (Uniform mm mm.length → g'.matchersMatched = mm.length →
      (∀ i, i < mm.length → mAt g' i ≠ -1) ∧
      (∀ j, j < mm.length → vAt g' j ≠ -1)) := by
  obtain ⟨⟨hc1, hc2, he1, he2, hmr, hvr⟩, hmm, hvl, hml, hcount⟩ :=
    solve_new_post mm g' hok
  refine ⟨?_, ?_, ?_⟩
  · intro i j hij
    have h0 : 0 ≤ mAt g' i := by
      rw [hij, Int.ofNat_eq_natCast]
      omega
    have hcc := hc1 i h0
    rw [hij, toNat_ofNat] at hcc
    exact hcc
  · intro i j hji
    have h0 : 0 ≤ vAt g' j := by
      rw [hji, Int.ofNat_eq_natCast]
      omega
    have hcc := hc2 j h0
    rw [hji, toNat_ofNat] at hcc
    exact hcc
  · intro hrows hfull
    exact ⟨solve_all_assigned mm g' hok hfull,
      solve_values_covered mm g' hrows hok hfull⟩

theorem claim_C8_amended_witness :
    Solve (newMatcherFlowGraph [[true]]) = .ok ⟨[[true]], [0], [0], 1⟩ ∧
    ((∀ i j : Nat,
        mAt ⟨[[true]], [0], [0], 1⟩ i = Int.ofNat j →
        vAt ⟨[[true]], [0], [0], 1⟩ j = Int.ofNat i) ∧
     (∀ i j : Nat,
        vAt ⟨[[true]], [0], [0], 1⟩ j = Int.ofNat i →
        mAt ⟨[[true]], [0], [0], 1⟩ i = Int.ofNat j) ∧
     (Uniform [[true]] [[true]].length →
       matcherFlowGraph.matchersMatched ⟨[[true]], [0], [0], 1⟩ =
         [[true]].length →
       (∀ i, i < [[true]].length →
         mAt ⟨[[true]], [0], [0], 1⟩ i ≠ -1) ∧
       (∀ j, j < [[true]].length →
         vAt ⟨[[true]], [0], [0], 1⟩ j ≠ -1))) :=
  ⟨rfl, claim_C8_amended [[true]] ⟨[[true]], [0], [0], 1⟩ rfl⟩

/-- C10: assignments made by the search only follow edges of the
compatibility matrix, on both sides; consequently every
`"value %d -> matcher %d"` string rendered from the result names a matcher
that the matrix records as accepting that value. -/
theorem claim_C10_edges (mm : List (List Bool)) (g' : matcherFlowGraph)
    (hok : Solve (newMatcherFlowGraph mm) = .ok g') :
    (∀ i, 0 ≤ mAt g' i → cell mm i (mAt g' i).toNat = true) ∧
    (∀ j, 0 ≤ vAt g' j → cell mm (vAt g' j).toNat j = true) ∧
    (∀ s ∈ pairStrings g'.valToMatcher, ∃ j i : Nat,
      s = "value " ++ toString j ++ " -> matcher " ++
        toString (Int.ofNat i) ∧
      vAt g' j = Int.ofNat i ∧ cell mm i j = true) := by
  obtain ⟨⟨hc1, hc2, he1, he2, hmr, hvr⟩, hmm, hvl, hml, hcount⟩ :=
    solve_new_post mm g' hok
  have hE1 : ∀ i, 0 ≤ mAt g' i → cell mm i (mAt g' i).toNat = true := by
    intro i h0
    have hcc := he1 i h0
    rwa [hmm] at hcc
  have hE2 : ∀ j, 0 ≤ vAt g' j → cell mm (vAt g' j).toNat j = true := by
    intro j h0
    have hcc := he2 j h0
    rwa [hmm] at hcc
  refine ⟨hE1, hE2, ?_⟩
  intro s hs
  rw [pairStrings] at hs
  obtain ⟨j, hjmem, hjs⟩ := List.mem_filterMap.mp hs
  dsimp only at hjs
  split at hjs
  next hne =>
    simp only [Option.some.injEq] at hjs
    have hne' : vAt g' j ≠ -1 := hne
    have h0 : 0 ≤ vAt g' j := by
      have := (hvr j).1
      omega
    refine ⟨j, (vAt g' j).toNat, ?_, ?_, ?_⟩
    · rw [← hjs]
      have heq : (g'.valToMatcher[j]?).getD (-1) =
          Int.ofNat (vAt g' j).toNat := by
        rw [Int.ofNat_eq_natCast, Int.toNat_of_nonneg h0]
        rfl
      rw [heq]
    · rw [Int.ofNat_eq_natCast, Int.toNat_of_nonneg h0]
    · exact hE2 j h0
  next =>
    exact Option.noConfusion hjs

theorem claim_C10_witness :
    Solve (newMatcherFlowGraph [[true, false], [false, true]]) =
      .ok ⟨[[true, false], [false, true]], [0, 1], [0, 1], 2⟩ ∧
    ((∀ i, 0 ≤ mAt ⟨[[true, false], [false, true]], [0, 1], [0, 1], 2⟩ i →
       cell [[true, false], [false, true]] i
         (mAt ⟨[[true, false], [false, true]], [0, 1], [0, 1], 2⟩ i).toNat =
         true) ∧
     (∀ j, 0 ≤ vAt ⟨[[true, false], [false, true]], [0, 1], [0, 1], 2⟩ j →
       cell [[true, false], [false, true]]
         (vAt ⟨[[true, false], [false, true]], [0, 1], [0, 1], 2⟩ j).toNat
         j = true) ∧
     (∀ s ∈ pairStrings
         (matcherFlowGraph.valToMatcher
           ⟨[[true, false], [false, true]], [0, 1], [0, 1], 2⟩),
       ∃ j i : Nat,
         s = "value " ++ toString j ++ " -> matcher " ++
           toString (Int.ofNat i) ∧
         vAt ⟨[[true, false], [false, true]], [0, 1], [0, 1], 2⟩ j =
           Int.ofNat i ∧
         cell [[true, false], [false, true]] i j = true)) :=
  ⟨rfl, claim_C10_edges [[true, false], [false, true]]
    ⟨[[true, false], [false, true]], [0, 1], [0, 1], 2⟩ rfl⟩

end Gotest
